import Mathlib

/-!
Verification development for the Ultimate (Super) Tic-Tac-Toe engine of
`leofiber/super-tic-tac-toe`.

The shallow embedding below translates the Python sources
`game/engine.py`, `game/advanced_ai.py`, `app/services/ai_service.py` and
`app/services/game_service.py` into Lean.

Modelling conventions:
* a 9×9 cell grid (`Board`) is a total function `Nat → Nat → Int`
  (0 = empty, 1 = X, -1 = O); only indices 0–8 are ever used;
* the 3×3 small-board status grid (`Status`) is `Nat → Nat → Nat`
  (0 = ongoing, 1 = X won, 2 = O won, 3 = draw); only indices 0–2 are used;
* numpy in-place mutation is modelled by returning the updated value
  (`setCell`, `update_small_board_status`);
* Python float infinities used as fold seeds are modelled by the explicit
  extension `Ext α` of a value type with `ninf` and `pinf`;
* wall-clock deadline tests are modelled by boolean oracles passed as
  arguments;
* `random.choice` is modelled by an extra `Nat` argument selecting an index,
  and a Python exception (e.g. `random.choice` on an empty list) by
  `Except.error`.
-/

namespace STTT

abbrev Board := Nat → Nat → Int

abbrev Status := Nat → Nat → Nat

abbrev Move := Nat × Nat

/-- Embeds `create_board` (engine.py): the empty 9×9 grid. -/
def create_board : Board := fun _ _ => 0

/-- Embeds `create_small_board_status` (engine.py): all sub-boards ongoing. -/
def create_small_board_status : Status := fun _ _ => 0

/-- Embeds `board[r, c] = v`: numpy in-place write, modelled functionally. -/
def setCell (b : Board) (r c : Nat) (v : Int) : Board :=
  fun i j => if i = r ∧ j = c then v else b i j

/-- All 81 cells in row-major order: the iteration order of
`for r in range(9): for c in range(9)`. -/
def allCells : List Move :=
  (List.range 9).flatMap fun r => (List.range 9).map fun c => (r, c)

/-- The 9 cells of sub-board `(bi, bj)` in row-major order: the iteration
order of `for r in range(bi*3, (bi+1)*3): for c in range(bj*3, (bj+1)*3)`. -/
def subCells (bi bj : Nat) : List Move :=
  (List.range 3).flatMap fun dr => (List.range 3).map fun dc => (3 * bi + dr, 3 * bj + dc)

/-- First branch of `get_available_moves`: the empty cells inside the
sub-board named by the constraint, in row-major order. -/
def constrainedMoves (board : Board) (bi bj : Nat) : List Move :=
  (subCells bi bj).filter fun m => decide (board m.1 m.2 = 0)

/-- Fallback branch of `get_available_moves`: every empty cell whose
containing sub-board is ongoing, across the whole grid, row-major. -/
def fallbackMoves (board : Board) (status : Status) : List Move :=
  allCells.filter fun m => decide (board m.1 m.2 = 0) && decide (status (m.1 / 3) (m.2 / 3) = 0)

/-- Embeds `get_available_moves(board, small_status, current_board)` (engine.py):
if the constraint names an ongoing sub-board and that sub-board has empty
cells, return those; otherwise fall back to the whole-grid scan. -/
def get_available_moves (board : Board) (status : Status) (cb : Option Move) : List Move :=
  match cb with
  | some (bi, bj) =>
      if status bi bj = 0 then
        let sub := constrainedMoves board bi bj
        if sub.isEmpty then fallbackMoves board status else sub
      else fallbackMoves board status
  | none => fallbackMoves board status

/-- Embeds `score_move(move)` (engine.py): heuristic move-ordering weight. -/
def score_move (m : Move) : Nat :=
  let r := m.1; let c := m.2
  let w1 := if (r / 3, c / 3) = (1, 1) then 3 else 0
  let w2 := if (r % 3, c % 3) = (1, 1) then 2 else 0
  let w3 := if (r % 3, c % 3) ∈ [((0 : Nat), (0 : Nat)), (0, 2), (2, 0), (2, 2)] then 1 else 0
  w1 + w2 + w3

/-- Embeds `eval_line(line, player)` (engine.py): score of one 3-cell line. -/
def evalLine (a b c : Int) (player : Int) : Int :=
  let pm : Nat := (if a = player then 1 else 0) + (if b = player then 1 else 0) +
    (if c = player then 1 else 0)
  let om : Nat := (if a = -player then 1 else 0) + (if b = -player then 1 else 0) +
    (if c = -player then 1 else 0)
  if om = 0 ∧ 0 < pm then (10 : Int) ^ pm
  else if pm = 0 ∧ 0 < om then -((10 : Int) ^ om)
  else 0

/-- Embeds `_small_owner(s)` (engine.py). -/
def smallOwner (s : Nat) : Int :=
  if s = 1 then 1 else if s = 2 then -1 else 0

/-- Cell `(k, l)` of sub-board `(i, j)`. -/
def subCell (board : Board) (i j k l : Nat) : Int := board (3 * i + k) (3 * j + l)

/-- The eight `eval_line` contributions of an ongoing sub-board in
`evaluate_board`: three rows, three columns, two diagonals. -/
def evalSubLines (board : Board) (i j : Nat) (player : Int) : Int :=
  let s := subCell board i j
  evalLine (s 0 0) (s 0 1) (s 0 2) player + evalLine (s 0 0) (s 1 0) (s 2 0) player +
  evalLine (s 1 0) (s 1 1) (s 1 2) player + evalLine (s 0 1) (s 1 1) (s 2 1) player +
  evalLine (s 2 0) (s 2 1) (s 2 2) player + evalLine (s 0 2) (s 1 2) (s 2 2) player +
  evalLine (s 0 0) (s 1 1) (s 2 2) player + evalLine (s 0 2) (s 1 1) (s 2 0) player

/-- Per-sub-board term of `evaluate_board`: ±1000 for a decided sub-board,
line potential for an ongoing one, 0 for a drawn one. -/
def statusCellScore (board : Board) (status : Status) (player : Int) (i j : Nat) : Int :=
  let s := status i j
  if s = 1 ∨ s = 2 then (if smallOwner s = player then 1000 else -1000)
  else if s = 0 then evalSubLines board i j player
  else 0

/-- Embeds `evaluate_board(board, small_status, player)` (engine.py): center
ownership bonus plus the nine per-sub-board terms. -/
def evaluate_board (board : Board) (status : Status) (player : Int) : Int :=
  (let cen := smallOwner (status 1 1)
   if cen = player then 500 else if cen = -player then -500 else 0) +
  statusCellScore board status player 0 0 + statusCellScore board status player 0 1 +
  statusCellScore board status player 0 2 + statusCellScore board status player 1 0 +
  statusCellScore board status player 1 1 + statusCellScore board status player 1 2 +
  statusCellScore board status player 2 0 + statusCellScore board status player 2 1 +
  statusCellScore board status player 2 2

/-- Embeds `check_small_board_winner(board, i, j)` (engine.py): +1, -1 or 0;
lines are tested in source order (row k, col k for k = 0,1,2, then the
two diagonals), returning the sign of the first line with |sum| = 3. -/
def check_small_board_winner (board : Board) (i j : Nat) : Int :=
  let s := subCell board i j
  let rs0 := s 0 0 + s 0 1 + s 0 2
  let cs0 := s 0 0 + s 1 0 + s 2 0
  let rs1 := s 1 0 + s 1 1 + s 1 2
  let cs1 := s 0 1 + s 1 1 + s 2 1
  let rs2 := s 2 0 + s 2 1 + s 2 2
  let cs2 := s 0 2 + s 1 2 + s 2 2
  let d1 := s 0 0 + s 1 1 + s 2 2
  let d2 := s 0 2 + s 1 1 + s 2 0
  if rs0.natAbs = 3 then rs0.sign
  else if cs0.natAbs = 3 then cs0.sign
  else if rs1.natAbs = 3 then rs1.sign
  else if cs1.natAbs = 3 then cs1.sign
  else if rs2.natAbs = 3 then rs2.sign
  else if cs2.natAbs = 3 then cs2.sign
  else if d1.natAbs = 3 then d1.sign
  else if d2.natAbs = 3 then d2.sign
  else 0

/-- Embeds `not (sub == EMPTY).any()`: sub-board `(i, j)` has no empty cell. -/
def subFull (board : Board) (i j : Nat) : Bool :=
  (subCells i j).all fun m => !decide (board m.1 m.2 = 0)

/-- Embeds `update_small_board_status(board, small_status)` (engine.py): the
in-place update, modelled as the returned status grid.  A non-ongoing
entry is left untouched; an ongoing entry becomes 1/2 on a win, 3 when
the sub-board is full, and stays 0 otherwise. -/
def update_small_board_status (board : Board) (status : Status) : Status := fun i j =>
  if i < 3 ∧ j < 3 ∧ status i j = 0 then
    let w := check_small_board_winner board i j
    if w = 1 then 1 else if w = -1 then 2 else if subFull board i j then 3 else 0
  else status i j

/-- Embeds `check_big_board_winner(small_status)` (engine.py): meta-lines tested
in source order (row i as X, row i as O, col i as X, col i as O for
i = 0,1,2, then the two diagonals). -/
def check_big_board_winner (status : Status) : Int :=
  if status 0 0 = 1 ∧ status 0 1 = 1 ∧ status 0 2 = 1 then 1
  else if status 0 0 = 2 ∧ status 0 1 = 2 ∧ status 0 2 = 2 then -1
  else if status 0 0 = 1 ∧ status 1 0 = 1 ∧ status 2 0 = 1 then 1
  else if status 0 0 = 2 ∧ status 1 0 = 2 ∧ status 2 0 = 2 then -1
  else if status 1 0 = 1 ∧ status 1 1 = 1 ∧ status 1 2 = 1 then 1
  else if status 1 0 = 2 ∧ status 1 1 = 2 ∧ status 1 2 = 2 then -1
  else if status 0 1 = 1 ∧ status 1 1 = 1 ∧ status 2 1 = 1 then 1
  else if status 0 1 = 2 ∧ status 1 1 = 2 ∧ status 2 1 = 2 then -1
  else if status 2 0 = 1 ∧ status 2 1 = 1 ∧ status 2 2 = 1 then 1
  else if status 2 0 = 2 ∧ status 2 1 = 2 ∧ status 2 2 = 2 then -1
  else if status 0 2 = 1 ∧ status 1 2 = 1 ∧ status 2 2 = 1 then 1
  else if status 0 2 = 2 ∧ status 1 2 = 2 ∧ status 2 2 = 2 then -1
  else if status 0 0 = 1 ∧ status 1 1 = 1 ∧ status 2 2 = 1 then 1
  else if status 0 0 = 2 ∧ status 1 1 = 2 ∧ status 2 2 = 2 then -1
  else if status 0 2 = 1 ∧ status 1 1 = 1 ∧ status 2 0 = 1 then 1
  else if status 0 2 = 2 ∧ status 1 1 = 2 ∧ status 2 0 = 2 then -1
  else 0

/-- Embeds `all(s != 0 for row in small_status for s in row)`. -/
def allStatusDecided (status : Status) : Bool :=
  (List.range 3).all fun i => (List.range 3).all fun j => !decide (status i j = 0)

/-- Constraint recomputation as done inside the engine's search code
(`minimax`, `_mcts_search`, `_is_capture_safe`, `hard_ai_move`):
`(r % 3, c % 3)` unless the sub-board *the move was played in*
(`small_status[r//3, c//3]`) is decided. -/
def engineNextConstraint (status : Status) (r c : Nat) : Option Move :=
  if status (r / 3) (c / 3) = 0 then some (r % 3, c % 3) else none

/-- Constraint recomputation as done by `GameService.make_move` and
`AIService._simulate_random_game`: `(r % 3, c % 3)` unless the *target*
sub-board (`small_status[r % 3, c % 3]`) is decided. -/
def serviceNextConstraint (status : Status) (r c : Nat) : Option Move :=
  if status (r % 3) (c % 3) = 0 then some (r % 3, c % 3) else none

/-! ### Row-major order and membership characterizations of move generation -/

/-- Strict row-major (lexicographic) order on cells. -/
def rowMajorLt (a b : Move) : Prop := a.1 < b.1 ∨ (a.1 = b.1 ∧ a.2 < b.2)

instance : DecidableRel rowMajorLt := fun a b => by unfold rowMajorLt; infer_instance

theorem allCells_pairwise : allCells.Pairwise rowMajorLt := by decide

theorem mem_allCells (r c : Nat) : (r, c) ∈ allCells ↔ r < 9 ∧ c < 9 := by
  simp [allCells, List.mem_flatMap, List.mem_map, List.mem_range]

theorem mem_subCells (bi bj r c : Nat) :
    (r, c) ∈ subCells bi bj ↔ r / 3 = bi ∧ c / 3 = bj := by
  simp only [subCells, List.mem_flatMap, List.mem_map, List.mem_range]
  constructor
  · rintro ⟨dr, hdr, dc, hdc, h⟩
    obtain ⟨h1, h2⟩ := Prod.mk.injEq .. ▸ h
    omega
  · rintro ⟨h1, h2⟩
    exact ⟨r - 3 * bi, by omega, c - 3 * bj, by omega, by simp [Prod.ext_iff]; omega⟩

theorem subCells_pairwise (bi bj : Nat) (h1 : bi < 3) (h2 : bj < 3) :
    (subCells bi bj).Pairwise rowMajorLt := by
  interval_cases bi <;> interval_cases bj <;> decide

theorem mem_constrainedMoves (board : Board) (bi bj r c : Nat) :
    (r, c) ∈ constrainedMoves board bi bj ↔ r / 3 = bi ∧ c / 3 = bj ∧ board r c = 0 := by
  simp only [constrainedMoves, List.mem_filter, mem_subCells, decide_eq_true_eq]
  tauto

theorem mem_fallbackMoves (board : Board) (status : Status) (r c : Nat) :
    (r, c) ∈ fallbackMoves board status ↔
      r < 9 ∧ c < 9 ∧ board r c = 0 ∧ status (r / 3) (c / 3) = 0 := by
  simp only [fallbackMoves, List.mem_filter, mem_allCells, Bool.and_eq_true, decide_eq_true_eq]
  tauto

theorem constrainedMoves_pairwise (board : Board) (bi bj : Nat) (h1 : bi < 3) (h2 : bj < 3) :
    (constrainedMoves board bi bj).Pairwise rowMajorLt :=
  (subCells_pairwise bi bj h1 h2).filter _

theorem fallbackMoves_pairwise (board : Board) (status : Status) :
    (fallbackMoves board status).Pairwise rowMajorLt :=
  allCells_pairwise.filter _

theorem getAvailableMoves_cases (board : Board) (status : Status) (bi bj : Nat) :
    get_available_moves board status (some (bi, bj)) =
      if status bi bj = 0 ∧ constrainedMoves board bi bj ≠ [] then constrainedMoves board bi bj
      else fallbackMoves board status := by
  unfold get_available_moves
  by_cases hst : status bi bj = 0 <;> by_cases he : constrainedMoves board bi bj = [] <;>
    simp [hst, he, List.isEmpty_iff]

/-- A full ongoing-marked sub-board: the 3×3 block at (0,0) holds the
draw pattern X O X / X O O / O X X, so it is full but has no winner. -/
def fullDrawSubBoard : Board := fun r c =>
  if r = 0 ∧ c = 0 then 1 else if r = 0 ∧ c = 1 then -1 else if r = 0 ∧ c = 2 then 1
  else if r = 1 ∧ c = 0 then 1 else if r = 1 ∧ c = 1 then -1 else if r = 1 ∧ c = 2 then -1
  else if r = 2 ∧ c = 0 then -1 else if r = 2 ∧ c = 1 then 1 else if r = 2 ∧ c = 2 then 1
  else 0

/-- C3, counterexample.  With every status entry 0 (ongoing), the
constraint naming sub-board (0,0), and sub-board (0,0) full (no empty
cell inside it), `get_available_moves` does **not** return "exactly the
empty cells inside the named ongoing sub-board" (which would be the empty
list): it falls back to the whole-grid scan and returns a non-empty list. -/
theorem claim3_counterexample :
    create_small_board_status 0 0 = 0 ∧
    constrainedMoves fullDrawSubBoard 0 0 = [] ∧
    get_available_moves fullDrawSubBoard create_small_board_status (some (0, 0)) ≠ [] := by
  refine ⟨rfl, by decide, by decide⟩

/-- C3 (amended).  `get_available_moves` always returns a strictly
row-major-ordered list.  If the constraint names an ongoing sub-board
that still has at least one empty cell, the result is exactly the empty
cells inside that sub-board; otherwise — constraint absent, constraint
naming a non-ongoing sub-board, or the named ongoing sub-board being
full — the result is exactly the empty cells of the whole grid whose
containing sub-board is ongoing. -/
theorem claim3_amended (board : Board) (status : Status) (cb : Option Move)
    (hcb : ∀ bi bj, cb = some (bi, bj) → bi < 3 ∧ bj < 3) :
    (get_available_moves board status cb).Pairwise rowMajorLt ∧
    (∀ bi bj, cb = some (bi, bj) → status bi bj = 0 → constrainedMoves board bi bj ≠ [] →
      ∀ r c, (r, c) ∈ get_available_moves board status cb ↔
        r / 3 = bi ∧ c / 3 = bj ∧ board r c = 0) ∧
    ((cb = none ∨ ∀ bi bj, cb = some (bi, bj) →
        status bi bj ≠ 0 ∨ constrainedMoves board bi bj = []) →
      ∀ r c, (r, c) ∈ get_available_moves board status cb ↔
        r < 9 ∧ c < 9 ∧ board r c = 0 ∧ status (r / 3) (c / 3) = 0) := by
  have hcases := getAvailableMoves_cases board status
  refine ⟨?_, ?_, ?_⟩
  · match cb with
    | none => exact fallbackMoves_pairwise board status
    | some (bi, bj) =>
      obtain ⟨h1, h2⟩ := hcb bi bj rfl
      rw [hcases bi bj]
      split
      · exact constrainedMoves_pairwise board bi bj h1 h2
      · exact fallbackMoves_pairwise board status
  · rintro bi bj rfl hst hne r c
    rw [hcases bi bj, if_pos ⟨hst, hne⟩]
    exact mem_constrainedMoves board bi bj r c
  · intro h r c
    rw [show get_available_moves board status cb = fallbackMoves board status by
      match cb with
      | none => rfl
      | some (bi, bj) =>
        rcases h with h | h
        · exact absurd h (by simp)
        · rw [hcases bi bj, if_neg]
          rintro ⟨hst, hne⟩
          rcases h bi bj rfl with h' | h'
          · exact h' hst
          · exact hne h']
    exact mem_fallbackMoves board status r c

/-- Witness for C3 (amended), at the empty board with constraint (1,1):
the result is row-major-sorted and membership of cell (4,4) is as claimed. -/
theorem claim3_amended_witness :
    (get_available_moves create_board create_small_board_status (some (1, 1))).Pairwise rowMajorLt ∧
    ((4, 4) ∈ get_available_moves create_board create_small_board_status (some (1, 1)) ↔
      4 / 3 = 1 ∧ 4 / 3 = 1 ∧ create_board 4 4 = 0) := by
  have h := claim3_amended create_board create_small_board_status (some (1, 1))
    (by rintro bi bj ⟨rfl, rfl⟩; exact ⟨by decide, by decide⟩)
  exact ⟨h.1, h.2.1 1 1 rfl (by decide) (by decide) 4 4⟩

/-! ### C9: monotonicity of the small-board status update -/

/-- C9.  `update_small_board_status` never changes an entry that is
already decided (1 = WonX, 2 = WonO, 3 = Draw): every non-ongoing entry
is preserved exactly, and an entry that does change was Ongoing (0) and
becomes 1, 2 or 3. -/
theorem claim9_status_monotonic (board : Board) (status : Status) (i j : Nat) :
    (status i j ≠ 0 → update_small_board_status board status i j = status i j) ∧
    (update_small_board_status board status i j ≠ status i j →
      status i j = 0 ∧ update_small_board_status board status i j ∈ [1, 2, 3]) := by
  constructor
  · intro h
    unfold update_small_board_status
    simp [h]
  · intro h
    by_cases hb : i < 3 ∧ j < 3 ∧ status i j = 0
    · refine ⟨hb.2.2, ?_⟩
      unfold update_small_board_status at h ⊢
      rw [if_pos hb] at h ⊢
      rw [hb.2.2] at h
      by_cases hw1 : check_small_board_winner board i j = 1 <;>
        by_cases hw2 : check_small_board_winner board i j = -1 <;>
          by_cases hf : subFull board i j <;>
            simp [hw1, hw2, hf] at h ⊢
    · exact absurd (by unfold update_small_board_status; rw [if_neg hb]) h

/-- Board with X holding the top row of sub-board (0,0). -/
def bC9 : Board := setCell (setCell (setCell create_board 0 0 1) 0 1 1) 0 2 1

/-- Status grid with sub-board (0,1) already won by O. -/
def sC9 : Status := fun i j => if i = 0 ∧ j = 1 then 2 else 0

/-- Witness for C9: the decided entry (0,1) is preserved, and the
entry (0,0), which the update does change, was ongoing and becomes 1/2/3. -/
theorem claim9_status_monotonic_witness :
    update_small_board_status bC9 sC9 0 1 = sC9 0 1 ∧
    (sC9 0 0 = 0 ∧ update_small_board_status bC9 sC9 0 0 ∈ [1, 2, 3]) :=
  ⟨(claim9_status_monotonic bC9 sC9 0 1).1 (by decide),
   (claim9_status_monotonic bC9 sC9 0 0).2 (by decide)⟩

/-! ### C6: antisymmetry of the static evaluation -/

theorem evalLine_neg (a b c p : Int) : evalLine a b c (-p) = -evalLine a b c p := by
  simp only [evalLine, neg_neg]
  generalize ((if a = p then 1 else 0) + (if b = p then 1 else 0) +
    (if c = p then 1 else 0) : Nat) = m
  generalize ((if a = -p then 1 else 0) + (if b = -p then 1 else 0) +
    (if c = -p then 1 else 0) : Nat) = o
  split_ifs <;> omega

theorem evalSubLines_neg (board : Board) (i j : Nat) (p : Int) :
    evalSubLines board i j (-p) = -evalSubLines board i j p := by
  simp only [evalSubLines, evalLine_neg]
  ring

theorem smallOwner_cases (s : Nat) : smallOwner s = 1 ∨ smallOwner s = -1 ∨ smallOwner s = 0 := by
  unfold smallOwner
  split_ifs <;> simp

theorem statusCellScore_neg (board : Board) (status : Status) (p : Int)
    (hp : p = 1 ∨ p = -1) (i j : Nat) :
    statusCellScore board status (-p) i j = -statusCellScore board status p i j := by
  simp only [statusCellScore]
  by_cases h1 : status i j = 1
  · rcases hp with rfl | rfl <;> simp [h1, smallOwner]
  by_cases h2 : status i j = 2
  · rcases hp with rfl | rfl <;> simp [h1, h2, smallOwner]
  by_cases h0 : status i j = 0
  · simp [h0, h1, h2, evalSubLines_neg]
  · simp [h0, h1, h2]

/-- C6.  For any board, status grid and actual player p (X = 1 or O = -1),
the static evaluation is antisymmetric under swapping the perspective:
`evaluate_board board status p = -evaluate_board board status (-p)`. -/
theorem claim6_evaluate_antisymmetric (board : Board) (status : Status) (p : Int)
    (hp : p = 1 ∨ p = -1) :
    evaluate_board board status p = -evaluate_board board status (-p) := by
  have hcen : (if smallOwner (status 1 1) = -p then (500 : Int)
      else if smallOwner (status 1 1) = - -p then -500 else 0) =
      -(if smallOwner (status 1 1) = p then (500 : Int)
        else if smallOwner (status 1 1) = -p then -500 else 0) := by
    rcases smallOwner_cases (status 1 1) with ho | ho | ho <;> rcases hp with rfl | rfl <;>
      rw [ho] <;> norm_num
  unfold evaluate_board
  simp only [statusCellScore_neg board status p hp, hcen]
  ring

/-- Witness for C6 at a concrete state: sub-board (0,1) won by O,
X marks on the top row of sub-board (0,0). -/
theorem claim6_evaluate_antisymmetric_witness :
    evaluate_board bC9 sC9 1 = -evaluate_board bC9 sC9 (-1) :=
  claim6_evaluate_antisymmetric bC9 sC9 1 (Or.inl rfl)

/-! ### C1: the two constraint-recomputation rules diverge -/

/-- Board with X at (0,0) and (0,1): X's move (0,2) completes sub-board
(0,0) while the target sub-board (0,2) stays ongoing. -/
def bC1 : Board := setCell (setCell create_board 0 0 1) 0 1 1

/-- C1, failing input.  The move (0,2) is legal; after it, sub-board
(0,0) (the one played in) is decided while the target sub-board (0,2) is
still ongoing.  The engine's search rule (`minimax`, `_mcts_search`,
`_is_capture_safe`: test `small_status[r//3, c//3]`) recomputes the
constraint as `None`, whereas `GameService.make_move` (test
`small_status[r%3, c%3]`) recomputes it as (0,2), and the two resulting
legal-move sets differ.  So the single rule stated by the claim does not
govern the search paths. -/
theorem claim1_constraint_divergence :
    (0, 2) ∈ get_available_moves bC1 create_small_board_status (some (0, 0)) ∧
    (update_small_board_status (setCell bC1 0 2 1) create_small_board_status) 0 2 = 0 ∧
    engineNextConstraint
      (update_small_board_status (setCell bC1 0 2 1) create_small_board_status) 0 2 = none ∧
    serviceNextConstraint
      (update_small_board_status (setCell bC1 0 2 1) create_small_board_status) 0 2 =
      some (0, 2) ∧
    get_available_moves (setCell bC1 0 2 1)
        (update_small_board_status (setCell bC1 0 2 1) create_small_board_status)
        (engineNextConstraint
          (update_small_board_status (setCell bC1 0 2 1) create_small_board_status) 0 2) ≠
      get_available_moves (setCell bC1 0 2 1)
        (update_small_board_status (setCell bC1 0 2 1) create_small_board_status)
        (serviceNextConstraint
          (update_small_board_status (setCell bC1 0 2 1) create_small_board_status) 0 2) := by
  decide

/-! ### C5: emptiness of `legal_moves` on reachable states -/

/-- Full game state as held by `GameService.active_games`. -/
structure GameState where
  board : Board
  status : Status
  cb : Option Move
  player : Int

/-- The state created by `GameService.create_game`. -/
def initialState : GameState :=
  { board := create_board, status := create_small_board_status, cb := none, player := 1 }

/-- The state-mutating core of `GameService.make_move`: write the mark,
recompute every small-board status, recompute the constraint from the
target sub-board, switch players. -/
def make_move (st : GameState) (r c : Nat) : GameState :=
  let b2 := setCell st.board r c st.player
  let s2 := update_small_board_status b2 st.status
  { board := b2, status := s2, cb := serviceNextConstraint s2 r c, player := -st.player }

/-- States reachable from the empty board by legal alternating moves
(each move legal per `get_available_moves`, with no big winner yet). -/
inductive Reachable : GameState → Prop where
  | init : Reachable initialState
  | step (st : GameState) (r c : Nat)
      (hmem : (r, c) ∈ get_available_moves st.board st.status st.cb)
      (hw : check_big_board_winner st.status = 0) (h : Reachable st) :
      Reachable (make_move st r c)

theorem subFull_eq_false_iff (board : Board) (i j : Nat) :
    subFull board i j = false ↔ ∃ m ∈ subCells i j, board m.1 m.2 = 0 := by
  rw [← Bool.not_eq_true, subFull]
  simp [List.all_eq_true]

/-- In any reachable state an ongoing sub-board still has an empty cell. -/
theorem reachable_ongoing_has_empty (st : GameState) (h : Reachable st) :
    ∀ i j, i < 3 → j < 3 → st.status i j = 0 →
      ∃ r c, (r, c) ∈ subCells i j ∧ st.board r c = 0 := by
  induction h with
  | init =>
    intro i j hi hj _
    exact ⟨3 * i, 3 * j, by rw [mem_subCells]; omega, rfl⟩
  | step st r c hmem hw hr ih =>
    intro i j hi hj h0
    simp only [make_move] at h0 ⊢
    by_cases hold : st.status i j = 0
    · unfold update_small_board_status at h0
      rw [if_pos ⟨hi, hj, hold⟩] at h0
      by_cases hw1 : check_small_board_winner (setCell st.board r c st.player) i j = 1
      · simp [hw1] at h0
      · by_cases hw2 : check_small_board_winner (setCell st.board r c st.player) i j = -1
        · simp [hw1, hw2] at h0
        · by_cases hf : subFull (setCell st.board r c st.player) i j = true
          · simp [hw1, hw2, hf] at h0
          · obtain ⟨m, hm, hb⟩ := (subFull_eq_false_iff _ i j).1 (by simpa using hf)
            exact ⟨m.1, m.2, by simpa using hm, hb⟩
    · exfalso
      apply hold
      have hkeep : update_small_board_status (setCell st.board r c st.player) st.status i j
          = st.status i j := by
        unfold update_small_board_status
        rw [if_neg (by tauto)]
      rw [hkeep] at h0
      exact h0

theorem reachable_cb_bounds (st : GameState) (h : Reachable st) :
    ∀ bi bj, st.cb = some (bi, bj) → bi < 3 ∧ bj < 3 := by
  induction h with
  | init => intro bi bj h; exact absurd h (by simp [initialState])
  | step st r c hmem hw hr ih =>
    intro bi bj hcb
    simp only [make_move, serviceNextConstraint] at hcb
    split at hcb
    · rw [Option.some.injEq, Prod.mk.injEq] at hcb
      obtain ⟨h1, h2⟩ := hcb
      omega
    · exact absurd hcb (by simp)

theorem fallbackMoves_eq_nil_iff (board : Board) (status : Status) :
    fallbackMoves board status = [] ↔
      ∀ r c, r < 9 → c < 9 → board r c = 0 → status (r / 3) (c / 3) ≠ 0 := by
  constructor
  · intro h r c hr hc hb hs
    have : (r, c) ∈ fallbackMoves board status :=
      (mem_fallbackMoves board status r c).2 ⟨hr, hc, hb, hs⟩
    simp [h] at this
  · intro h
    rw [List.eq_nil_iff_forall_not_mem]
    rintro ⟨r, c⟩ hm
    obtain ⟨hr, hc, hb, hs⟩ := (mem_fallbackMoves board status r c).1 hm
    exact h r c hr hc hb hs

/-- The 17-move game (found by simulating the engine) in which X wins
sub-boards (0,2), (1,2) and (2,2) and thereby the big board, while other
sub-boards are still ongoing with empty cells. -/
def c5Moves : List Move :=
  [(3, 6), (0, 2), (2, 7), (8, 5), (6, 7), (2, 5), (6, 8), (2, 8), (6, 6), (1, 2),
   (5, 6), (7, 2), (4, 6), (3, 2), (1, 7), (3, 5), (0, 7)]

/-- The final state of that game. -/
def c5FinalState : GameState := c5Moves.foldl (fun s m => make_move s m.1 m.2) initialState

set_option maxHeartbeats 4000000 in
theorem c5FinalState_reachable : Reachable c5FinalState := by
  have h0 : Reachable initialState := .init
  have h1 := Reachable.step _ 3 6 (by decide) (by decide) h0
  have h2 := Reachable.step _ 0 2 (by decide) (by decide) h1
  have h3 := Reachable.step _ 2 7 (by decide) (by decide) h2
  have h4 := Reachable.step _ 8 5 (by decide) (by decide) h3
  have h5 := Reachable.step _ 6 7 (by decide) (by decide) h4
  have h6 := Reachable.step _ 2 5 (by decide) (by decide) h5
  have h7 := Reachable.step _ 6 8 (by decide) (by decide) h6
  have h8 := Reachable.step _ 2 8 (by decide) (by decide) h7
  have h9 := Reachable.step _ 6 6 (by decide) (by decide) h8
  have h10 := Reachable.step _ 1 2 (by decide) (by decide) h9
  have h11 := Reachable.step _ 5 6 (by decide) (by decide) h10
  have h12 := Reachable.step _ 7 2 (by decide) (by decide) h11
  have h13 := Reachable.step _ 4 6 (by decide) (by decide) h12
  have h14 := Reachable.step _ 3 2 (by decide) (by decide) h13
  have h15 := Reachable.step _ 1 7 (by decide) (by decide) h14
  have h16 := Reachable.step _ 3 5 (by decide) (by decide) h15
  have h17 := Reachable.step _ 0 7 (by decide) (by decide) h16
  exact h17

set_option maxHeartbeats 4000000 in
/-- C5, counterexample.  A reachable state in which a big-board winner
exists (X) yet `get_available_moves` is non-empty: the claimed
equivalence "legal_moves empty iff all sub-boards decided or a winner
exists" fails in the right-to-left direction, because move generation
never consults the big-board winner. -/
theorem claim5_counterexample :
    Reachable c5FinalState ∧ check_big_board_winner c5FinalState.status = 1 ∧
      get_available_moves c5FinalState.board c5FinalState.status c5FinalState.cb ≠ [] :=
  ⟨c5FinalState_reachable, by decide, by decide⟩

/-- C5 (amended).  For every reachable state, `legal_moves` is empty iff
every sub-board status is non-Ongoing.  (The "or a big winner exists"
disjunct of the original claim is dropped: a winning position can leave
ongoing sub-boards with empty cells, and then legal moves remain.) -/
theorem claim5_amended (st : GameState) (h : Reachable st) :
    get_available_moves st.board st.status st.cb = [] ↔
      ∀ i j, i < 3 → j < 3 → st.status i j ≠ 0 := by
  constructor
  · intro hnil i j hi hj h0
    have hfb : fallbackMoves st.board st.status = [] := by
      match hcb : st.cb with
      | none => rw [hcb] at hnil; simpa [get_available_moves] using hnil
      | some (bi, bj) =>
        rw [hcb, getAvailableMoves_cases] at hnil
        split at hnil
        · exact absurd hnil (by tauto)
        · exact hnil
    obtain ⟨r, c, hm, hb⟩ := reachable_ongoing_has_empty st h i j hi hj h0
    obtain ⟨hdr, hdc⟩ := (mem_subCells i j r c).1 hm
    exact (fallbackMoves_eq_nil_iff st.board st.status).1 hfb r c (by omega) (by omega) hb
      (by rw [hdr, hdc]; exact h0)
  · intro hdec
    have hfb : fallbackMoves st.board st.status = [] := by
      rw [fallbackMoves_eq_nil_iff]
      intro r c hr hc _
      exact hdec (r / 3) (c / 3) (by omega) (by omega)
    match hcb : st.cb with
    | none => simpa [get_available_moves] using hfb
    | some (bi, bj) =>
      obtain ⟨hbi, hbj⟩ := reachable_cb_bounds st h bi bj hcb
      rw [getAvailableMoves_cases, if_neg (by simp [hdec bi bj hbi hbj]), hfb]

/-- Witness for C5 (amended) at the initial state. -/
theorem claim5_amended_witness :
    get_available_moves initialState.board initialState.status initialState.cb = [] ↔
      ∀ i j, i < 3 → j < 3 → initialState.status i j ≠ 0 :=
  claim5_amended initialState Reachable.init

/-! ### C7: the endgame minimax -/

/-- A value type extended with the Python float infinities `float('inf')`
and `float('-inf')` used as fold seeds and α/β bounds. -/
inductive Ext (α : Type) where
  | ninf : Ext α
  | fin (v : α) : Ext α
  | pinf : Ext α
deriving DecidableEq, Repr

/-- Python `<=` on extended values. -/
def Ext.le {α : Type} [LinearOrder α] : Ext α → Ext α → Bool
  | .ninf, _ => true
  | .fin a, .fin b => decide (a ≤ b)
  | .fin _, .pinf => true
  | .fin _, .ninf => false
  | .pinf, .pinf => true
  | .pinf, _ => false

/-- Python `max` on extended values. -/
def Ext.maxE {α : Type} [LinearOrder α] (a b : Ext α) : Ext α :=
  if Ext.le a b then b else a

/-- Python `min` on extended values. -/
def Ext.minE {α : Type} [LinearOrder α] (a b : Ext α) : Ext α :=
  if Ext.le a b then a else b

/-- Embeds `state_key(board, small_status, current_board)` (engine.py): the
flattened grids plus the constraint. -/
abbrev TTKey := List Int × List Nat × Option Move

def stateKey (board : Board) (status : Status) (cb : Option Move) : TTKey :=
  (allCells.map fun m => board m.1 m.2,
   (List.range 3).flatMap fun i => (List.range 3).map fun j => status i j,
   cb)

/-- The global `transposition_table` dict, as an association list. -/
abbrev TTable := List (TTKey × (Nat × Ext Int))

def lookupTT (k : TTKey) : TTable → Option (Nat × Ext Int)
  | [] => none
  | (k', v) :: rest => if k' = k then some v else lookupTT k rest

def storeTT (k : TTKey) (v : Nat × Ext Int) : TTable → TTable
  | [] => [(k, v)]
  | (k', v') :: rest => if k' = k then (k, v) :: rest else (k', v') :: storeTT k v rest

/-- Stable insertion step for `list.sort(key=..., reverse=True)`. -/
def insertByDesc {α : Type} [LinearOrder α] (key : Move → α) (m : Move) :
    List Move → List Move
  | [] => [m]
  | x :: xs => if key x < key m then m :: x :: xs else x :: insertByDesc key m xs

/-- Python's stable descending sort by a key. -/
def sortByDesc {α : Type} [LinearOrder α] (key : Move → α) (l : List Move) : List Move :=
  l.foldl (fun acc m => insertByDesc key m acc) []

/-- Stable insertion step for `list.sort(key=...)` (ascending). -/
def insertByAsc {α : Type} [LinearOrder α] (key : Move → α) (m : Move) :
    List Move → List Move
  | [] => [m]
  | x :: xs => if key m < key x then m :: x :: xs else x :: insertByAsc key m xs

/-- Python's stable ascending sort by a key. -/
def sortByAsc {α : Type} [LinearOrder α] (key : Move → α) (l : List Move) : List Move :=
  l.foldl (fun acc m => insertByAsc key m acc) []

mutual
/-- Embeds `minimax(board, small_status, current_board, player, depth, alpha, beta, start)`
(engine.py).  The wall-clock test `time.time() - start > 1.0` is modelled by
the boolean `timedOut`; the global transposition table is threaded through
explicitly; values are `Ext Int` because `best`, `alpha` and `beta` start
at the float infinities. -/
def minimax (board : Board) (status : Status) (cb : Option Move) (player : Int)
    (depth : Nat) (alpha beta : Ext Int) (timedOut : Bool) (table : TTable) :
    Ext Int × TTable :=
  if check_big_board_winner status = 1 then (.fin (10000 + depth), table)
  else if check_big_board_winner status = -1 then (.fin (-10000 - depth), table)
  else if allStatusDecided status then (.fin 0, table)
  else if hdt : depth = 0 ∨ timedOut = true then
    (.fin (evaluate_board board status player), table)
  else
    let key := stateKey board status cb
    let hit := match lookupTT key table with
      | some dv => if depth ≤ dv.1 then some dv.2 else none
      | none => none
    match hit with
    | some v => (v, table)
    | none =>
      let moves := sortByDesc score_move (get_available_moves board status cb)
      let init : Ext Int := if player = 1 then .ninf else .pinf
      let res := minimaxLoop board status player (depth - 1) timedOut moves init alpha beta table
      (res.1, storeTT key (depth, res.1) res.2)
termination_by (depth, 0, 0)
decreasing_by
  refine Prod.Lex.left _ _ ?_
  omega

/-- The `for r, c in moves` loop of `minimax`, with alpha–beta cutoff. -/
def minimaxLoop (board : Board) (status : Status) (player : Int) (depth : Nat)
    (timedOut : Bool) (moves : List Move) (best alpha beta : Ext Int) (table : TTable) :
    Ext Int × TTable :=
  match moves with
  | [] => (best, table)
  | (r, c) :: rest =>
    let b2 := setCell board r c player
    let s2 := update_small_board_status b2 status
    let nb := engineNextConstraint s2 r c
    let res := minimax b2 s2 nb (-player) depth alpha beta timedOut table
    if player = 1 then
      let best2 := Ext.maxE best res.1
      let alpha2 := Ext.maxE alpha res.1
      if Ext.le beta alpha2 then (best2, res.2)
      else minimaxLoop board status player depth timedOut rest best2 alpha2 beta res.2
    else
      let best2 := Ext.minE best res.1
      let beta2 := Ext.minE beta res.1
      if Ext.le beta2 alpha then (best2, res.2)
      else minimaxLoop board status player depth timedOut rest best2 alpha beta2 res.2
termination_by (depth, 1, moves.length)
decreasing_by
  all_goals first
    | exact Prod.Lex.right _ (Prod.Lex.left _ _ (by omega))
    | exact Prod.Lex.right _ (Prod.Lex.right _ (by simp))
end

/-- C7.  `minimax` returns `10000 + depth` when X has already won the big
board, `-(10000 + depth)` when O has won, `0` when no sub-board is ongoing
and there is no winner, and the evaluator score from the mover's
perspective when the depth is exhausted or the deadline has passed — all
before examining any move (the table is left untouched). -/
theorem claim7_minimax_leaves (board : Board) (status : Status) (cb : Option Move)
    (player : Int) (depth : Nat) (alpha beta : Ext Int) (timedOut : Bool) (table : TTable) :
    (check_big_board_winner status = 1 →
      minimax board status cb player depth alpha beta timedOut table =
        (.fin (10000 + depth), table)) ∧
    (check_big_board_winner status = -1 →
      minimax board status cb player depth alpha beta timedOut table =
        (.fin (-10000 - depth), table)) ∧
    (check_big_board_winner status = 0 → allStatusDecided status = true →
      minimax board status cb player depth alpha beta timedOut table = (.fin 0, table)) ∧
    (check_big_board_winner status = 0 → allStatusDecided status = false →
      (depth = 0 ∨ timedOut = true) →
      minimax board status cb player depth alpha beta timedOut table =
        (.fin (evaluate_board board status player), table)) := by
  refine ⟨fun h1 => ?_, fun h1 => ?_, fun h1 h2 => ?_, fun h1 h2 h3 => ?_⟩
  · rw [minimax]; simp [h1]
  · rw [minimax]; simp [h1]
  · rw [minimax]; simp [h1, h2]
  · rcases h3 with rfl | h3
    · rw [minimax]; simp [h1, h2]
    · rw [minimax]; simp [h1, h2, h3]

/-- Status grid: X won the whole top meta-row. -/
def sXwon : Status := fun i _ => if i = 0 then 1 else 0

/-- Status grid: O won the whole top meta-row. -/
def sOwon : Status := fun i _ => if i = 0 then 2 else 0

/-- Status grid: all nine sub-boards drawn. -/
def sAllDraw : Status := fun _ _ => 3

/-- Witness for C7: all four leaf cases at concrete states. -/
theorem claim7_minimax_leaves_witness :
    minimax create_board sXwon none 1 3 .ninf .pinf false [] = (.fin (10000 + (3 : Nat)), []) ∧
    minimax create_board sOwon none 1 3 .ninf .pinf false [] = (.fin (-10000 - (3 : Nat)), []) ∧
    minimax create_board sAllDraw none 1 3 .ninf .pinf false [] = (.fin 0, []) ∧
    minimax create_board create_small_board_status none 1 0 .ninf .pinf false [] =
      (.fin (evaluate_board create_board create_small_board_status 1), []) :=
  ⟨(claim7_minimax_leaves create_board sXwon none 1 3 .ninf .pinf false []).1 (by decide),
   (claim7_minimax_leaves create_board sOwon none 1 3 .ninf .pinf false []).2.1 (by decide),
   (claim7_minimax_leaves create_board sAllDraw none 1 3 .ninf .pinf false []).2.2.1
     (by decide) (by decide),
   (claim7_minimax_leaves create_board create_small_board_status none 1 0 .ninf .pinf
     false []).2.2.2 (by decide) (by decide) (Or.inl rfl)⟩

/-! ### C4: the safe-capture filter -/

/-- Embeds `_macro_two_in_row_potential(small_status, owner)` (engine.py): the
number of meta lines (3 rows, 3 columns, 2 diagonals) holding exactly two
of `owner`'s sub-board statuses with the third cell still ongoing. -/
def twoInRowPotential (status : Status) (owner : Int) : Nat :=
  let lines : List (Nat × Nat × Nat) :=
    [(status 0 0, status 0 1, status 0 2), (status 0 0, status 1 0, status 2 0),
     (status 1 0, status 1 1, status 1 2), (status 0 1, status 1 1, status 2 1),
     (status 2 0, status 2 1, status 2 2), (status 0 2, status 1 2, status 2 2),
     (status 0 0, status 1 1, status 2 2), (status 0 2, status 1 1, status 2 0)]
  let target : Nat := if owner = 1 then 1 else 2
  (lines.filter fun l =>
    decide (((if l.1 = target then 1 else 0) + (if l.2.1 = target then 1 else 0) +
      (if l.2.2 = target then 1 else 0) : Nat) = 2) &&
    decide (((if l.1 = 0 then 1 else 0) + (if l.2.1 = 0 then 1 else 0) +
      (if l.2.2 = 0 then 1 else 0) : Nat) = 1)).length

/-- Embeds `_makes_small_capture(board, move, player)` (engine.py). -/
def makesSmallCapture (board : Board) (m : Move) (player : Int) : Bool :=
  decide (check_small_board_winner (setCell board m.1 m.2 player) (m.1 / 3) (m.2 / 3) = player)

/-- Embeds `_small_capture_candidates(board, small_status, current_board, player)`. -/
def smallCaptureCandidates (board : Board) (status : Status) (cb : Option Move)
    (player : Int) : List Move :=
  (get_available_moves board status cb).filter fun m => makesSmallCapture board m player

/-- Embeds `_is_capture_safe(board, small_status, current_board, move, player)`
(engine.py): simulate the capture, derive the opponent's constraint by the
engine rule, then scan every opponent reply — any instant big-board win,
any capture of the center or a corner sub-board, or any reply after which
the opponent has macro two-in-row potential ≥ 1 makes the capture unsafe. -/
def isCaptureSafe (board : Board) (status : Status) (cb : Option Move) (m : Move)
    (player : Int) : Bool :=
  let r := m.1; let c := m.2
  let tb := setCell board r c player
  let ts := update_small_board_status tb status
  let nb := engineNextConstraint ts r c
  let opp := -player
  let bigWinReply : Move → Bool := fun mv =>
    decide (check_big_board_winner
      (update_small_board_status (setCell tb mv.1 mv.2 opp) ts) = opp)
  let firstPass :=
    match nb with
    | some _ => (get_available_moves tb ts nb).all fun mv => !bigWinReply mv
    | none => (get_available_moves tb ts none).all fun mv => !bigWinReply mv
  firstPass &&
    ((get_available_moves tb ts nb).all fun mv =>
      let bi := mv.1 / 3; let bj := mv.2 / 3
      let t2b := setCell tb mv.1 mv.2 opp
      let capBad :=
        decide (check_small_board_winner t2b bi bj = opp) &&
          (decide ((bi, bj) = (1, 1)) ||
            decide ((bi, bj) ∈ [((0 : Nat), (0 : Nat)), (0, 2), (2, 0), (2, 2)]))
      let t2s := update_small_board_status t2b ts
      !capBad && !decide (1 ≤ twoInRowPotential t2s opp))

/-- After-capture board: our mark written. -/
def capBoard (board : Board) (m : Move) (player : Int) : Board :=
  setCell board m.1 m.2 player

/-- After-capture status grid. -/
def capStatus (board : Board) (status : Status) (m : Move) (player : Int) : Status :=
  update_small_board_status (capBoard board m player) status

/-- Opponent replies considered by the safe-capture filter: the legal
moves after the capture, under the engine-derived constraint. -/
def capReplies (board : Board) (status : Status) (m : Move) (player : Int) : List Move :=
  get_available_moves (capBoard board m player) (capStatus board status m player)
    (engineNextConstraint (capStatus board status m player) m.1 m.2)

/-- Modelled from the claim's wording, as stated: a capture is "safe" iff
after simulating it and deriving the opponent's constraint, no legal
opponent reply (i) instantly wins the big board, (ii) captures the center
or a corner sub-board, or (iii) creates **two** simultaneous meta-line
threats (macro two-in-row potential ≥ 2 after the reply). -/
def specCaptureSafeTwoThreats (board : Board) (status : Status) (m : Move)
    (player : Int) : Prop :=
  ∀ mv ∈ capReplies board status m player,
    check_big_board_winner (update_small_board_status
      (setCell (capBoard board m player) mv.1 mv.2 (-player))
      (capStatus board status m player)) ≠ -player ∧
    ¬(check_small_board_winner (setCell (capBoard board m player) mv.1 mv.2 (-player))
        (mv.1 / 3) (mv.2 / 3) = -player ∧
      ((mv.1 / 3, mv.2 / 3) = (1, 1) ∨
        (mv.1 / 3, mv.2 / 3) ∈ [((0 : Nat), (0 : Nat)), (0, 2), (2, 0), (2, 2)])) ∧
    twoInRowPotential (update_small_board_status
      (setCell (capBoard board m player) mv.1 mv.2 (-player))
      (capStatus board status m player)) (-player) < 2

/-- Modelled from the amended claim: same as `specCaptureSafeTwoThreats`
except that condition (iii) is "leaves the opponent with **at least one**
meta-line threat" (macro two-in-row potential ≥ 1 after the reply). -/
def specCaptureSafeOneThreat (board : Board) (status : Status) (m : Move)
    (player : Int) : Prop :=
  ∀ mv ∈ capReplies board status m player,
    check_big_board_winner (update_small_board_status
      (setCell (capBoard board m player) mv.1 mv.2 (-player))
      (capStatus board status m player)) ≠ -player ∧
    ¬(check_small_board_winner (setCell (capBoard board m player) mv.1 mv.2 (-player))
        (mv.1 / 3) (mv.2 / 3) = -player ∧
      ((mv.1 / 3, mv.2 / 3) = (1, 1) ∨
        (mv.1 / 3, mv.2 / 3) ∈ [((0 : Nat), (0 : Nat)), (0, 2), (2, 0), (2, 2)])) ∧
    twoInRowPotential (update_small_board_status
      (setCell (capBoard board m player) mv.1 mv.2 (-player))
      (capStatus board status m player)) (-player) = 0

/-- Board for the C4 counterexample: X about to capture sub-board (0,0)
with (0,2); O already owns sub-board (0,1) and has two marks in row 6 of
sub-board (2,1), one move away from capturing that edge sub-board. -/
def bC4 : Board := fun r c =>
  if r = 0 ∧ c = 0 then 1 else if r = 0 ∧ c = 1 then 1
  else if r = 0 ∧ c = 3 then -1 else if r = 0 ∧ c = 4 then -1 else if r = 0 ∧ c = 5 then -1
  else if r = 6 ∧ c = 3 then -1 else if r = 6 ∧ c = 4 then -1
  else 0

/-- Status grid for the C4 counterexample: sub-board (0,1) won by O. -/
def sC4 : Status := fun i j => if i = 0 ∧ j = 1 then 2 else 0

/-- Expresses `_is_capture_safe` as its two reply scans over `capReplies`: both the
big-win scan (whose `if nb is not None` split runs the same loop on the
same move list in either branch) and the capture/threat scan. -/
theorem isCaptureSafe_eq (board : Board) (status : Status) (cb : Option Move) (m : Move)
    (player : Int) :
    isCaptureSafe board status cb m player =
      (((capReplies board status m player).all fun mv =>
          !decide (check_big_board_winner (update_small_board_status
            (setCell (capBoard board m player) mv.1 mv.2 (-player))
            (capStatus board status m player)) = -player)) &&
        ((capReplies board status m player).all fun mv =>
          !(decide (check_small_board_winner (setCell (capBoard board m player) mv.1 mv.2
              (-player)) (mv.1 / 3) (mv.2 / 3) = -player) &&
            (decide ((mv.1 / 3, mv.2 / 3) = (1, 1)) ||
              decide ((mv.1 / 3, mv.2 / 3) ∈ [((0 : Nat), (0 : Nat)), (0, 2), (2, 0), (2, 2)]))) &&
          !decide (1 ≤ twoInRowPotential (update_small_board_status
            (setCell (capBoard board m player) mv.1 mv.2 (-player))
            (capStatus board status m player)) (-player)))) := by
  simp only [isCaptureSafe, capReplies, capStatus, capBoard]
  cases hE : engineNextConstraint
    (update_small_board_status (setCell board m.1 m.2 player) status) m.1 m.2 <;> rfl

set_option maxHeartbeats 4000000 in
/-- C4, counterexample.  The capture (0,2) of sub-board (0,0) by X is
"safe" per the claim as stated (no opponent reply wins the big board,
captures a center/corner sub-board, or creates two simultaneous
meta-line threats), yet `_is_capture_safe` classifies it as unsafe: O's
reply (6,5) captures the edge sub-board (2,1) and creates just **one**
meta-line threat, and the code already rejects on potential ≥ 1. -/
theorem claim4_counterexample :
    (0, 2) ∈ smallCaptureCandidates bC4 sC4 (some (0, 0)) 1 ∧
    specCaptureSafeTwoThreats bC4 sC4 (0, 2) 1 ∧
    isCaptureSafe bC4 sC4 (some (0, 0)) (0, 2) 1 = false := by
  refine ⟨by decide, ?_, by decide⟩
  unfold specCaptureSafeTwoThreats
  decide

/-- C4 (amended).  For every state, candidate move and player, the
safe-capture filter classifies the capture as safe **iff** after applying
the move and deriving the opponent's constraint, no legal opponent reply
(i) immediately wins the big board, (ii) immediately captures a center or
corner sub-board, or (iii) leaves the opponent with at least one
meta-line threat (two of their sub-board statuses in a meta line with the
third cell still Ongoing). -/
theorem claim4_amended (board : Board) (status : Status) (cb : Option Move) (m : Move)
    (player : Int) :
    isCaptureSafe board status cb m player = true ↔
      specCaptureSafeOneThreat board status m player := by
  rw [isCaptureSafe_eq, Bool.and_eq_true, List.all_eq_true, List.all_eq_true]
  unfold specCaptureSafeOneThreat
  constructor
  · rintro ⟨h1, h2⟩ mv hmv
    have g1 := h1 mv hmv
    have g2 := h2 mv hmv
    simp only [Bool.not_eq_true', decide_eq_false_iff_not] at g1
    simp only [Bool.and_eq_true, Bool.not_eq_true', Bool.and_eq_false_iff,
      Bool.or_eq_false_iff, decide_eq_false_iff_not, decide_eq_true_eq] at g2
    refine ⟨g1, ?_, by omega⟩
    rcases g2.1 with hc | hcc
    · exact fun hh => hc hh.1
    · rintro ⟨hw, he | he⟩
      · exact hcc.1 he
      · exact hcc.2 he
  · intro h
    refine ⟨fun mv hmv => ?_, fun mv hmv => ?_⟩
    · simp only [Bool.not_eq_true', decide_eq_false_iff_not]
      exact (h mv hmv).1
    · obtain ⟨_, hcap, hpot⟩ := h mv hmv
      simp only [Bool.and_eq_true, Bool.not_eq_true', Bool.and_eq_false_iff,
        Bool.or_eq_false_iff, decide_eq_false_iff_not, decide_eq_true_eq]
      refine ⟨?_, by omega⟩
      by_cases hw : check_small_board_winner
          (setCell (capBoard board m player) mv.1 mv.2 (-player)) (mv.1 / 3) (mv.2 / 3)
          = -player
      · exact Or.inr ⟨fun he => hcap ⟨hw, Or.inl he⟩, fun he => hcap ⟨hw, Or.inr he⟩⟩
      · exact Or.inl hw

/-! ### C2: the AI move selector (`AdvancedAI.get_move`, hard difficulty) -/

/-- Python `<` on extended values. -/
def Ext.lt {α : Type} [LinearOrder α] : Ext α → Ext α → Bool
  | .ninf, .ninf => false
  | .ninf, _ => true
  | .fin a, .fin b => decide (a < b)
  | .fin _, .pinf => true
  | .fin _, .ninf => false
  | .pinf, _ => false

/-- Embeds `np.sum(board == EMPTY)`. -/
def countEmpties (board : Board) : Nat :=
  (allCells.filter fun m => decide (board m.1 m.2 = 0)).length

/-- Embeds `random.choice(l)` with an index oracle; raises on an empty list. -/
def randomChoice (l : List Move) (pick : Nat) : Except Unit Move :=
  match l with
  | [] => .error ()
  | _ :: _ => .ok (l.getD (pick % l.length) (0, 0))

/-- Embeds `AdvancedAI.opening_book`. -/
def advOpeningBook : List Move :=
  [(4, 4), (4, 1), (4, 7), (1, 4), (7, 4), (0, 0), (0, 8), (8, 0), (8, 8),
   (2, 2), (2, 6), (6, 2), (6, 6)]

/-- Embeds `AdvancedAI._evaluate_small_board_importance(i, j, small_status)`:
×2.0 for the center sub-board, ×1.5 for corners, ×1.0 otherwise
(the status grid is accepted but unused, as in the source). -/
def advImportance (i j : Nat) (status : Status) : ℚ :=
  if (i, j) = (1, 1) then 2
  else if (i, j) ∈ [((0 : Nat), (0 : Nat)), (0, 2), (2, 0), (2, 2)] then 3 / 2
  else 1

/-- Embeds `AdvancedAI._evaluate_position_value(r, c, board, small_status)`:
sub-board weight (500/200/100) plus in-sub-board cell weight (250/100). -/
def advPositionValue (r c : Nat) : Int :=
  (if (r / 3, c / 3) = (1, 1) then 500
   else if (r / 3, c / 3) ∈ [((0 : Nat), (0 : Nat)), (0, 2), (2, 0), (2, 2)] then 200
   else 100) +
  (if (r % 3, c % 3) = (1, 1) then 250
   else if (r % 3, c % 3) ∈ [((0 : Nat), (0 : Nat)), (0, 2), (2, 0), (2, 2)] then 100
   else 0)

/-- Embeds `AdvancedAI._evaluate_line_potential(line, player)`. -/
def advLinePotential (a b c : Int) (player : Int) : Int :=
  let pc : Nat := (if a = player then 1 else 0) + (if b = player then 1 else 0) +
    (if c = player then 1 else 0)
  let oc : Nat := (if a = -player then 1 else 0) + (if b = -player then 1 else 0) +
    (if c = -player then 1 else 0)
  let ec : Nat := (if a = 0 then 1 else 0) + (if b = 0 then 1 else 0) + (if c = 0 then 1 else 0)
  if 0 < oc then 0
  else if pc = 2 ∧ ec = 1 then 500
  else if pc = 1 ∧ ec = 2 then 100
  else if pc = 0 ∧ ec = 3 then 10
  else 0

/-- Embeds `AdvancedAI._evaluate_small_board_progress(board, bi, bj, player)`:
the eight line potentials of one sub-board. -/
def advSmallBoardProgress (board : Board) (bi bj : Nat) (player : Int) : Int :=
  let s := subCell board bi bj
  advLinePotential (s 0 0) (s 0 1) (s 0 2) player + advLinePotential (s 1 0) (s 1 1) (s 1 2) player +
  advLinePotential (s 2 0) (s 2 1) (s 2 2) player + advLinePotential (s 0 0) (s 1 0) (s 2 0) player +
  advLinePotential (s 0 1) (s 1 1) (s 2 1) player + advLinePotential (s 0 2) (s 1 2) (s 2 2) player +
  advLinePotential (s 0 0) (s 1 1) (s 2 2) player + advLinePotential (s 0 2) (s 1 1) (s 2 0) player

/-- One sub-board's term of `AdvancedAI._advanced_evaluate`. -/
def advCellScore (board : Board) (status : Status) (player : Int) (i j : Nat) : ℚ :=
  if status i j = 1 then 10000 * advImportance i j status
  else if status i j = 2 then -(10000 * advImportance i j status)
  else (advSmallBoardProgress board i j player : ℚ) * advImportance i j status

/-- Embeds `AdvancedAI._advanced_evaluate(board, small_status, player)`
(`_evaluate_strategic_positioning` and `_evaluate_threats` return 0). -/
def advEvaluate (board : Board) (status : Status) (player : Int) : ℚ :=
  let score :=
    advCellScore board status player 0 0 + advCellScore board status player 0 1 +
    advCellScore board status player 0 2 + advCellScore board status player 1 0 +
    advCellScore board status player 1 1 + advCellScore board status player 1 2 +
    advCellScore board status player 2 0 + advCellScore board status player 2 1 +
    advCellScore board status player 2 2 + 0 + 0
  if player = 1 then score else -score

mutual
/-- Embeds `AdvancedAI._enhanced_minimax(board, small_status, current_board,
player, depth, alpha, beta, start_time)`; the `time.time() - start_time > 4`
test is the boolean `timedOut4`. -/
def advEnhancedMinimax (board : Board) (status : Status) (cb : Option Move) (player : Int)
    (depth : Nat) (alpha beta : Ext ℚ) (timedOut4 : Bool) : Ext ℚ :=
  if timedOut4 = true then .fin (advEvaluate board status player)
  else if check_big_board_winner status = 1 then .fin (1000000 + depth)
  else if check_big_board_winner status = -1 then .fin (-1000000 - depth)
  else if allStatusDecided status then .fin 0
  else if hd : depth = 0 then .fin (advEvaluate board status player)
  else
    let moves := get_available_moves board status cb
    if moves.isEmpty then .fin 0
    else
      let sorted := if player = 1 then sortByDesc (fun mv => advPositionValue mv.1 mv.2) moves
        else sortByAsc (fun mv => advPositionValue mv.1 mv.2) moves
      advMinimaxLoop board status player (depth - 1) timedOut4 sorted
        (if player = 1 then .ninf else .pinf) alpha beta
termination_by (depth, 0, 0)
decreasing_by
  refine Prod.Lex.left _ _ ?_
  omega

/-- The move loop of `_enhanced_minimax`, with alpha–beta cutoff. -/
def advMinimaxLoop (board : Board) (status : Status) (player : Int) (depth : Nat)
    (timedOut4 : Bool) (moves : List Move) (best alpha beta : Ext ℚ) : Ext ℚ :=
  match moves with
  | [] => best
  | (r, c) :: rest =>
    let b2 := setCell board r c player
    let s2 := update_small_board_status b2 status
    let nb := engineNextConstraint s2 r c
    let sc := advEnhancedMinimax b2 s2 nb (-player) depth alpha beta timedOut4
    if player = 1 then
      let best2 := Ext.maxE best sc
      let alpha2 := Ext.maxE alpha sc
      if Ext.le beta alpha2 then best2
      else advMinimaxLoop board status player depth timedOut4 rest best2 alpha2 beta
    else
      let best2 := Ext.minE best sc
      let beta2 := Ext.minE beta sc
      if Ext.le beta2 alpha then best2
      else advMinimaxLoop board status player depth timedOut4 rest best2 alpha beta2
termination_by (depth, 1, moves.length)
decreasing_by
  all_goals first
    | exact Prod.Lex.right _ (Prod.Lex.left _ _ (by omega))
    | exact Prod.Lex.right _ (Prod.Lex.right _ (by simp))
end

/-- Embeds `AdvancedAI._opening_move(board, small_status, current_board)`:
first book move that is legal, else the center cell of any available
sub-board, else a random legal move, else `None`. -/
def advOpeningMove (board : Board) (status : Status) (cb : Option Move) (pick : Nat) :
    Option Move :=
  let moves := get_available_moves board status cb
  match advOpeningBook.find? (fun mv => decide (mv ∈ moves)) with
  | some mv => some mv
  | none =>
    match moves.find? (fun m => decide ((m.1 % 3, m.2 % 3) = (1, 1))) with
    | some mv => some mv
    | none => if moves.isEmpty then none else some (moves.getD (pick % moves.length) (0, 0))

/-- Embeds `AdvancedAI._find_immediate_win(board, small_status, current_board, player)`. -/
def advFindImmediateWin (board : Board) (status : Status) (cb : Option Move)
    (player : Int) : Option Move :=
  (get_available_moves board status cb).find? fun mv =>
    decide (check_big_board_winner
      (update_small_board_status (setCell board mv.1 mv.2 player) status) = player)

/-- Embeds `AdvancedAI._find_critical_block(board, small_status, current_board, player)`:
block an immediate big-board win, else block the strategically most
important small-board capture threat. -/
def advFindCriticalBlock (board : Board) (status : Status) (cb : Option Move)
    (player : Int) : Option Move :=
  let moves := get_available_moves board status cb
  match moves.find? (fun mv =>
      decide (check_big_board_winner
        (update_small_board_status (setCell board mv.1 mv.2 (-player)) status) = -player)) with
  | some mv => some mv
  | none =>
    let critical := moves.filter fun mv =>
      decide (check_small_board_winner (setCell board mv.1 mv.2 (-player))
        (mv.1 / 3) (mv.2 / 3) = -player)
    match sortByDesc (fun mv => advImportance (mv.1 / 3) (mv.2 / 3) status) critical with
    | [] => none
    | mv :: _ => some mv

/-- Embeds `AdvancedAI._strategic_midgame(board, small_status, current_board, player)`:
pick the move maximizing the four-factor score (three factors are the
source's constant-0 stubs); the trailing
`best_move or random.choice(moves)` raises `IndexError` on an empty move
list, modelled as `Except.error`. -/
def advStrategicMidgame (board : Board) (status : Status) (cb : Option Move)
    (player : Int) (pick : Nat) : Except Unit Move :=
  let moves := get_available_moves board status cb
  let best := moves.foldl (fun acc mv =>
    let sc : Int := advPositionValue mv.1 mv.2 + 0 + 0 + 0
    match acc with
    | none => some (mv, sc)
    | some (bm, bs) => if bs < sc then some (mv, sc) else some (bm, bs)) none
  match best with
  | some (mv, _) => .ok mv
  | none => randomChoice moves pick

/-- Embeds `AdvancedAI._deep_endgame_search`'s move loop: per-move 5-second
budget test `t5` (indexed by loop position), strict improvement tracking
per side. -/
def advDeepLoop (board : Board) (status : Status) (player : Int) (timedOut4 : Bool)
    (t5 : Nat → Bool) : List Move → Nat → Option Move → Ext ℚ → Option Move
  | [], _, bm, _ => bm
  | mv :: rest, idx, bm, bs =>
    if t5 idx then bm
    else
      let b2 := setCell board mv.1 mv.2 player
      let s2 := update_small_board_status b2 status
      let nb := engineNextConstraint s2 mv.1 mv.2
      let sc := advEnhancedMinimax b2 s2 nb (-player) 12 .ninf .pinf timedOut4
      if player = 1 then
        if Ext.lt bs sc then advDeepLoop board status player timedOut4 t5 rest (idx + 1) (some mv) sc
        else advDeepLoop board status player timedOut4 t5 rest (idx + 1) bm bs
      else
        if Ext.lt sc bs then advDeepLoop board status player timedOut4 t5 rest (idx + 1) (some mv) sc
        else advDeepLoop board status player timedOut4 t5 rest (idx + 1) bm bs

/-- Embeds `AdvancedAI._deep_endgame_search(board, small_status, current_board, player)`:
moves sorted by position value descending, each evaluated by
`_enhanced_minimax` at depth 12; `best_move or random.choice(moves)`
raises on an empty move list. -/
def advDeepEndgameSearch (board : Board) (status : Status) (cb : Option Move)
    (player : Int) (timedOut4 : Bool) (t5 : Nat → Bool) (pick : Nat) : Except Unit Move :=
  let moves := get_available_moves board status cb
  let sorted := sortByDesc (fun mv => advPositionValue mv.1 mv.2) moves
  match advDeepLoop board status player timedOut4 t5 sorted 0 none
    (if player = 1 then .ninf else .pinf) with
  | some mv => .ok mv
  | none => randomChoice moves pick

/-- Embeds `AdvancedAI.get_move(board, small_status, current_board, player)`:
opening book for the first five plies, then immediate-win and
critical-block checks, then strategic midgame (> 25 empties) or deep
endgame search.  `Except.error` models an uncaught Python exception. -/
def advGetMove (board : Board) (status : Status) (cb : Option Move) (player : Int)
    (pick : Nat) (timedOut4 : Bool) (t5 : Nat → Bool) : Except Unit (Option Move) :=
  let empties := countEmpties board
  if 81 - 5 ≤ empties then .ok (advOpeningMove board status cb pick)
  else
    match advFindImmediateWin board status cb player with
    | some mv => .ok (some mv)
    | none =>
      match advFindCriticalBlock board status cb player with
      | some mv => .ok (some mv)
      | none =>
        if 25 < empties then (advStrategicMidgame board status cb player pick).map some
        else (advDeepEndgameSearch board status cb player timedOut4 t5 pick).map some

/-- Status grid for the C2 failing input: all nine sub-boards won
(5 by X, 4 by O) with no big-board line. -/
def sC2 : Status := fun i j =>
  if i = 0 then (if j = 0 then 1 else if j = 1 then 2 else 1)
  else if i = 1 then (if j = 0 then 2 else if j = 1 then 2 else 1)
  else (if j = 0 then 1 else if j = 1 then 1 else 2)

/-- Board for the C2 failing input: each sub-board's winner holds its top
row; 54 cells remain empty. -/
def bC2 : Board := fun r c =>
  if r % 3 = 0 then smallOwner (sC2 (r / 3) (c / 3)) else 0

set_option maxHeartbeats 2000000 in
/-- C2.  At a terminal-by-exhaustion position (all nine sub-boards
decided, no big winner, 54 empty cells) the hard-difficulty selector does
**not** return the distinguished no-move result: `_strategic_midgame`
reaches `random.choice(moves)` with `moves == []` and raises `IndexError`
(modelled as `Except.error`), violating the claim for the hard entry
point even though `legal_moves` is empty. -/
theorem claim2_hard_fails_on_terminal :
    get_available_moves bC2 sC2 none = [] ∧
    check_big_board_winner sC2 = 0 ∧
    25 < countEmpties bC2 ∧ countEmpties bC2 < 76 ∧
    advGetMove bC2 sC2 none 1 0 false (fun _ => false) = .error () := by
  refine ⟨by decide, by decide, by decide, by decide, ?_⟩
  rfl

/-! ### C8: the PUCT Monte-Carlo tree search (`_mcts_search`) -/

/-- Embeds `_Node` (engine.py): visit count `N`, total value `W`, mean value `Q`,
prior `P`, the player recorded at creation, and the insertion-ordered
`children` dict as an association list.  The `parent` and `move` fields
are structural (the key in the parent's list).  Float statistics are
modelled as exact rationals. -/
inductive MTree where
  | node (N : Nat) (W Q P : ℚ) (player : Int) (children : List (Move × MTree))

def MTree.N : MTree → Nat
  | .node n _ _ _ _ _ => n

def MTree.W : MTree → ℚ
  | .node _ w _ _ _ _ => w

def MTree.Q : MTree → ℚ
  | .node _ _ q _ _ _ => q

def MTree.P : MTree → ℚ
  | .node _ _ _ p _ _ => p

def MTree.children : MTree → List (Move × MTree)
  | .node _ _ _ _ _ cs => cs

/-- Embeds `nd.N += 1; nd.W += v; nd.Q = nd.W / nd.N`: one backpropagation
update of a node's own statistics. -/
def MTree.bump : MTree → ℚ → MTree
  | .node n w _ p pl cs, v => .node (n + 1) (w + v) ((w + v) / (n + 1)) p pl cs

/-- Replace the child stored under key `m` (dict assignment). -/
def MTree.replaceChild : MTree → Move → MTree → MTree
  | .node n w q p pl cs, m, c' =>
    .node n w q p pl (cs.map fun mc => if mc.1 = m then (m, c') else mc)

/-- Embeds `max(1, score_move(m))`, summed over the legal moves: the denominator
of `_legal_with_priors`. -/
def priorTotal (moves : List Move) : ℚ :=
  ((moves.map fun m => max 1 (score_move m)).sum : Nat)

/-- The prior `pri[m]` of `_legal_with_priors`. -/
def priorOf (moves : List Move) (m : Move) : ℚ :=
  (max 1 (score_move m) : Nat) / priorTotal moves

/-- The PUCT score `ch.Q + c_puct * ch.P * sqrt(node.N + 1) / (1 + ch.N)`
with `c_puct = 1.6`; the float square root is the oracle `sqrtQ`. -/
def puctScore (sqrtQ : ℚ → ℚ) (parentN : Nat) (ch : MTree) : ℚ :=
  ch.Q + (8 / 5) * ch.P * sqrtQ ((parentN : ℚ) + 1) / (1 + (ch.N : ℚ))

/-- Embeds `_puct_select(node)` (engine.py): best child by PUCT score, starting
from `best = -1e18` with strict improvement; returns `none` (Python: an
unpacking crash upstream) when no child scores above the seed. -/
def puctSelect (sqrtQ : ℚ → ℚ) (t : MTree) : Option (Move × MTree) :=
  (t.children.foldl (fun acc mc =>
      let u := puctScore sqrtQ t.N mc.2
      if acc.1 < u then (u, some mc) else acc)
    (-(10 : ℚ) ^ 18, none)).2

/-- Membership lemma for `puctSelect`, needed for termination and the
tree invariants. -/
theorem puctSelect_mem (sqrtQ : ℚ → ℚ) (t : MTree) (mc : Move × MTree)
    (h : puctSelect sqrtQ t = some mc) : mc ∈ t.children := by
  unfold puctSelect at h
  have key : ∀ (l : List (Move × MTree)) (acc : ℚ × Option (Move × MTree)),
      (∀ x, acc.2 = some x → x ∈ t.children) → (∀ x ∈ l, x ∈ t.children) →
      ∀ x, (l.foldl (fun acc mc =>
        let u := puctScore sqrtQ t.N mc.2
        if acc.1 < u then (u, some mc) else acc) acc).2 = some x → x ∈ t.children := by
    intro l
    induction l with
    | nil => intro acc hacc _ x hx; exact hacc x hx
    | cons c rest ih =>
      intro acc hacc hl x hx
      refine ih _ ?_ (fun y hy => hl y (List.mem_cons_of_mem _ hy)) x hx
      intro y hy
      by_cases hc : acc.1 < puctScore sqrtQ t.N c.2
      · simp [hc] at hy
        exact hy ▸ hl c (List.mem_cons_self ..)
      · simp [hc] at hy
        exact hacc y hy
  exact key t.children _ (by intro x hx; simp at hx) (fun x hx => hx) mc h

theorem sizeOf_child_lt {m : Move} {c : MTree} {t : MTree}
    (h : (m, c) ∈ t.children) : sizeOf c < sizeOf t := by
  match t with
  | .node n w q p pl cs =>
    have h1 : sizeOf (m, c) < sizeOf cs := List.sizeOf_lt_of_mem h
    have h2 : sizeOf (m, c) = 1 + sizeOf m + sizeOf c := rfl
    simp only [MTree.node.sizeOf_spec]
    omega

/-- One playout of `_mcts_search`'s main loop: selection down the tree
(replaying moves on the scratch state, engine constraint rule), expansion
with priors at a childless non-terminal node, terminal/heuristic
evaluation relative to the root's mover (`tanhQ` is the float
`math.tanh(score / 1200.0)` oracle), and negamax backpropagation along
the visited path, returned as the rebuilt tree.  The value returned is
the one applied at this node.  `Except.error` is the Python crash on
`_puct_select` returning no child. -/
def mctsSimulate (sqrtQ tanhQ : ℚ → ℚ) (rootPlayer : Int) (board : Board) (status : Status)
    (cb : Option Move) (p : Int) (t : MTree) : Except Unit (ℚ × MTree) :=
  match t.children with
  | [] =>
    let w := check_big_board_winner status
    if w ≠ 0 then
      let v : ℚ := if w = rootPlayer then 1 else if w = -rootPlayer then -1 else 0
      .ok (v, t.bump v)
    else
      let avail := get_available_moves board status cb
      if avail = [] then .ok (0, t.bump 0)
      else
        let expanded := MTree.node t.N t.W t.Q t.P
          (match t with | .node _ _ _ _ pl _ => pl)
          (avail.map fun m => (m, MTree.node 0 0 0 (priorOf avail m) p []))
        let v := tanhQ ((evaluate_board board status rootPlayer : ℚ) / 1200)
        .ok (v, expanded.bump v)
  | _ :: _ =>
    match hps : puctSelect sqrtQ t with
    | none => .error ()
    | some (m, child) =>
      let b2 := setCell board m.1 m.2 p
      let s2 := update_small_board_status b2 status
      let cb2 := engineNextConstraint s2 m.1 m.2
      let w := check_big_board_winner s2
      if w ≠ 0 ∨ get_available_moves b2 s2 cb2 = [] then
        let v : ℚ := if w = rootPlayer then 1 else if w = -rootPlayer then -1 else 0
        .ok (-v, (t.replaceChild m (child.bump v)).bump (-v))
      else
        match mctsSimulate sqrtQ tanhQ rootPlayer b2 s2 cb2 (-p) child with
        | .error e => .error e
        | .ok (vc, child2) => .ok (-vc, (t.replaceChild m child2).bump (-vc))
termination_by sizeOf t
decreasing_by
  exact sizeOf_child_lt (puctSelect_mem sqrtQ t _ hps)

/-- The root node built by `_mcts_search`: `_Node(None, None, player, 1.0)`
with one child per legal move carrying the normalized priors. -/
def mctsInitRoot (board : Board) (status : Status) (cb : Option Move) (player : Int) :
    MTree :=
  let moves := get_available_moves board status cb
  .node 0 0 0 1 player (moves.map fun m => (m, MTree.node 0 0 0 (priorOf moves m) (-player) []))

/-- The iteration loop of `_mcts_search`:
`while iters < max_playouts and (time.time() - t0) < time_limit`, the
wall clock modelled by the per-iteration oracle `timeUp`.  Returns the
final tree and the number of iterations performed. -/
def mctsLoop (sqrtQ tanhQ : ℚ → ℚ) (player : Int) (board : Board) (status : Status)
    (cb : Option Move) (timeUp : Nat → Bool) (root : MTree) (iters : Nat) :
    (fuel : Nat) → Except Unit (MTree × Nat)
  | 0 => .ok (root, iters)
  | fuel + 1 =>
    if timeUp iters then .ok (root, iters)
    else
      match mctsSimulate sqrtQ tanhQ player board status cb player root with
      | .error e => .error e
      | .ok (_, root2) =>
        mctsLoop sqrtQ tanhQ player board status cb timeUp root2 (iters + 1) fuel

/-- One step of Python `max(..., key=N)`: replace the best-so-far only on
a strictly larger visit count (first maximum kept on ties). -/
def pickMaxN (acc c : Move × MTree) : Move × MTree :=
  if acc.2.N < c.2.N then c else acc

/-- Embeds `max(root.children.items(), key=lambda kv: kv[1].N)[0]`: the first
child with maximal visit count, `none` on an empty dict. -/
def mctsDecision (root : MTree) : Option Move :=
  match root.children with
  | [] => none
  | c0 :: rest => some ((rest.foldl pickMaxN c0).1)

/-- Means that `mc` is the first entry of `cs` with maximal visit count: everything
before it is strictly smaller, everything after is no larger. -/
def IsFirstMaxByN (cs : List (Move × MTree)) (mc : Move × MTree) : Prop :=
  ∃ l1 l2, cs = l1 ++ mc :: l2 ∧ (∀ x ∈ l1, x.2.N < mc.2.N) ∧ (∀ x ∈ l2, x.2.N ≤ mc.2.N)

/-- Embeds `_mcts_search(board, small_status, current_board, player, time_limit,
max_playouts)` (engine.py). -/
def mctsSearch (sqrtQ tanhQ : ℚ → ℚ) (board : Board) (status : Status) (cb : Option Move)
    (player : Int) (timeUp : Nat → Bool) (maxPlayouts : Nat) : Except Unit (Option Move) :=
  match mctsLoop sqrtQ tanhQ player board status cb timeUp
    (mctsInitRoot board status cb player) 0 maxPlayouts with
  | .error e => .error e
  | .ok (root', _) => .ok (mctsDecision root')

/-- Node-statistics invariant maintained by the search: |W| ≤ N (every
visit adds a value of magnitude ≤ 1), |Q| ≤ 1, prior ≥ 0, recursively
for all children. -/
def WfTree : MTree → Prop
  | .node n w q p _ cs =>
      |w| ≤ (n : ℚ) ∧ |q| ≤ 1 ∧ 0 ≤ p ∧ ∀ m c, (m, c) ∈ cs → WfTree c
termination_by t => sizeOf t
decreasing_by exact sizeOf_child_lt (by assumption)

theorem WfTree_node_iff (n : Nat) (w q p : ℚ) (pl : Int) (cs : List (Move × MTree)) :
    WfTree (.node n w q p pl cs) ↔
      |w| ≤ (n : ℚ) ∧ |q| ≤ 1 ∧ 0 ≤ p ∧ ∀ m c, (m, c) ∈ cs → WfTree c := by
  rw [WfTree]

theorem priorOf_nonneg (moves : List Move) (m : Move) : 0 ≤ priorOf moves m := by
  unfold priorOf priorTotal
  exact div_nonneg (Nat.cast_nonneg _) (Nat.cast_nonneg _)

theorem bump_wf {t : MTree} {v : ℚ} (hwf : WfTree t) (hv : |v| ≤ 1) : WfTree (t.bump v) := by
  match t with
  | .node n w q p pl cs =>
    obtain ⟨h1, h2, h3, h4⟩ := (WfTree_node_iff ..).1 hwf
    rw [MTree.bump, WfTree_node_iff]
    have hW : |w + v| ≤ (n : ℚ) + 1 := by
      calc |w + v| ≤ |w| + |v| := abs_add w v
        _ ≤ (n : ℚ) + 1 := by linarith
    have hden : (0 : ℚ) < (n : ℚ) + 1 := by positivity
    refine ⟨by push_cast; exact hW, ?_, h3, h4⟩
    rw [abs_div, abs_of_pos hden, div_le_one hden]
    exact hW

theorem replaceChild_wf {t : MTree} {m : Move} {c' : MTree} (hwf : WfTree t)
    (hc' : WfTree c') : WfTree (t.replaceChild m c') := by
  match t with
  | .node n w q p pl cs =>
    obtain ⟨h1, h2, h3, h4⟩ := (WfTree_node_iff ..).1 hwf
    rw [MTree.replaceChild, WfTree_node_iff]
    refine ⟨h1, h2, h3, ?_⟩
    intro m2 c2 hmem
    rw [List.mem_map] at hmem
    obtain ⟨mc, hmc, heq⟩ := hmem
    by_cases he : mc.1 = m
    · simp only [he, if_true] at heq
      cases heq
      exact hc'
    · simp only [he, if_false] at heq
      cases heq
      exact h4 m2 c2 hmc

theorem replaceChild_keys (t : MTree) (m : Move) (c' : MTree) :
    (t.replaceChild m c').children.map Prod.fst = t.children.map Prod.fst := by
  match t with
  | .node n w q p pl cs =>
    rw [MTree.replaceChild]
    simp only [MTree.children, List.map_map]
    congr 1
    funext mc
    by_cases he : mc.1 = m <;> simp [he]

theorem bump_children (t : MTree) (v : ℚ) : (t.bump v).children = t.children := by
  match t with
  | .node n w q p pl cs => rfl

theorem mctsInitRoot_wf (board : Board) (status : Status) (cb : Option Move) (player : Int) :
    WfTree (mctsInitRoot board status cb player) := by
  rw [mctsInitRoot, WfTree_node_iff]
  refine ⟨by norm_num, by norm_num, by norm_num, ?_⟩
  intro m c hmem
  rw [List.mem_map] at hmem
  obtain ⟨mv, _, heq⟩ := hmem
  cases heq
  rw [WfTree_node_iff]
  exact ⟨by norm_num, by norm_num, priorOf_nonneg _ _, by simp⟩

theorem map_fst_pair {β : Type} (l : List Move) (f : Move → β) :
    (l.map fun m => (m, f m)).map Prod.fst = l := by
  induction l with
  | nil => rfl
  | cons a t ih => simp [ih]

theorem mctsInitRoot_keys (board : Board) (status : Status) (cb : Option Move)
    (player : Int) :
    (mctsInitRoot board status cb player).children.map Prod.fst =
      get_available_moves board status cb := by
  simp only [mctsInitRoot, MTree.children]
  exact map_fst_pair _ _

theorem puctScore_ge (sqrtQ : ℚ → ℚ) (hsqrt : ∀ x, 0 ≤ sqrtQ x) (pN : Nat) (ch : MTree)
    (hq : |ch.Q| ≤ 1) (hp : 0 ≤ ch.P) : -1 ≤ puctScore sqrtQ pN ch := by
  unfold puctScore
  have h1 : (0 : ℚ) ≤ (8 / 5) * ch.P * sqrtQ ((pN : ℚ) + 1) / (1 + (ch.N : ℚ)) := by
    apply div_nonneg
    · have := hsqrt ((pN : ℚ) + 1)
      positivity
    · positivity
  have h2 : -1 ≤ ch.Q := (abs_le.1 hq).1
  linarith

theorem puctSelect_some (sqrtQ : ℚ → ℚ) (hsqrt : ∀ x, 0 ≤ sqrtQ x) (t : MTree)
    (c0 : Move × MTree) (cs : List (Move × MTree)) (hch : t.children = c0 :: cs)
    (hq : |c0.2.Q| ≤ 1) (hp : 0 ≤ c0.2.P) :
    ∃ mc, puctSelect sqrtQ t = some mc := by
  unfold puctSelect
  rw [hch, List.foldl_cons]
  have hu0 : -(10 : ℚ) ^ 18 < puctScore sqrtQ t.N c0.2 := by
    have := puctScore_ge sqrtQ hsqrt t.N c0.2 hq hp
    have hlt : -(10 : ℚ) ^ 18 < -1 := by norm_num
    linarith
  have keep : ∀ (l : List (Move × MTree)) (acc : ℚ × Option (Move × MTree)),
      acc.2.isSome → ((l.foldl (fun acc mc =>
        let u := puctScore sqrtQ t.N mc.2
        if acc.1 < u then (u, some mc) else acc) acc).2).isSome := by
    intro l
    induction l with
    | nil => intro acc h; exact h
    | cons c rest ih =>
      intro acc h
      refine ih _ ?_
      show (if acc.1 < puctScore sqrtQ t.N c.2 then (puctScore sqrtQ t.N c.2, some c)
        else acc).2.isSome
      by_cases hc : acc.1 < puctScore sqrtQ t.N c.2
      · rw [if_pos hc]; rfl
      · rw [if_neg hc]; exact h
  have hacc : ((if -(10 : ℚ) ^ 18 < puctScore sqrtQ t.N c0.2
      then (puctScore sqrtQ t.N c0.2, some c0)
      else (-(10 : ℚ) ^ 18, none)) : ℚ × Option (Move × MTree)).2.isSome := by
    rw [if_pos hu0]
    rfl
  exact Option.isSome_iff_exists.1 (keep cs _ hacc)

theorem WfTree.q_abs_le {t : MTree} (h : WfTree t) : |t.Q| ≤ 1 := by
  match t with
  | .node .. => exact ((WfTree_node_iff ..).1 h).2.1

theorem WfTree.p_nonneg {t : MTree} (h : WfTree t) : 0 ≤ t.P := by
  match t with
  | .node .. => exact ((WfTree_node_iff ..).1 h).2.2.1

theorem WfTree.child {t c : MTree} {m : Move} (h : WfTree t) (hm : (m, c) ∈ t.children) :
    WfTree c := by
  match t with
  | .node .. => exact ((WfTree_node_iff ..).1 h).2.2.2 m c hm

theorem terminalValue_abs (w rp : Int) :
    |(if w = rp then (1 : ℚ) else if w = -rp then -1 else 0)| ≤ 1 := by
  split_ifs <;> norm_num

theorem keysOf_bump_replace (t : MTree) (m : Move) (c' : MTree) (v : ℚ) :
    ((t.replaceChild m c').bump v).children.map Prod.fst = t.children.map Prod.fst := by
  rw [bump_children, replaceChild_keys]

/-- Totality and invariants of one playout: under bounded `tanhQ` and
nonnegative `sqrtQ`, `mctsSimulate` never takes the crash branch, its
value stays in [-1, 1], well-formedness is preserved, a node with
children keeps exactly its child keys, and a childless node at a state
with no legal move stays childless. -/
theorem mctsSimulate_spec (sqrtQ tanhQ : ℚ → ℚ) (hsqrt : ∀ x, 0 ≤ sqrtQ x)
    (htanh : ∀ x, |tanhQ x| ≤ 1) (rootPlayer : Int) :
    ∀ (n : Nat) (t : MTree), sizeOf t ≤ n → ∀ (board : Board) (status : Status)
      (cb : Option Move) (p : Int), WfTree t →
      ∃ v t', mctsSimulate sqrtQ tanhQ rootPlayer board status cb p t = .ok (v, t') ∧
        |v| ≤ 1 ∧ WfTree t' ∧
        (t.children ≠ [] → t'.children.map Prod.fst = t.children.map Prod.fst) ∧
        (t.children = [] → get_available_moves board status cb = [] →
          t'.children = []) := by
  intro n
  induction n with
  | zero =>
    intro t ht
    exfalso
    match t with
    | .node tn tw tq tp tpl tcs => simp [MTree.node.sizeOf_spec] at ht
  | succ n ih =>
    intro t ht board status cb p hwf
    obtain ⟨tn, tw, tq, tp, tpl, tcs⟩ := t
    cases tcs with
    | nil =>
      rw [mctsSimulate]
      simp only [MTree.children]
      by_cases hw : check_big_board_winner status ≠ 0
      · rw [if_pos hw]
        refine ⟨_, _, rfl, terminalValue_abs _ _, bump_wf hwf (terminalValue_abs _ _), ?_, ?_⟩
        · intro h; exact absurd rfl h
        · intro _ _; rfl
      · rw [if_neg hw]
        by_cases ha : get_available_moves board status cb = []
        · rw [if_pos ha]
          refine ⟨_, _, rfl, by norm_num, bump_wf hwf (by norm_num), ?_, ?_⟩
          · intro h; exact absurd rfl h
          · intro _ _; rfl
        · rw [if_neg ha]
          have hwfexp : WfTree (MTree.node tn tw tq tp tpl
              ((get_available_moves board status cb).map fun m =>
                (m, MTree.node 0 0 0 (priorOf (get_available_moves board status cb) m)
                  p []))) := by
            obtain ⟨h1, h2, h3, _⟩ := (WfTree_node_iff ..).1 hwf
            rw [WfTree_node_iff]
            refine ⟨h1, h2, h3, ?_⟩
            intro m c hmem
            rw [List.mem_map] at hmem
            obtain ⟨mv, _, heq⟩ := hmem
            cases heq
            rw [WfTree_node_iff]
            exact ⟨by norm_num, by norm_num, priorOf_nonneg _ _, by simp⟩
          refine ⟨_, _, rfl, htanh _, bump_wf hwfexp (htanh _), ?_, ?_⟩
          · intro h; exact absurd rfl h
          · intro _ hmoves; exact absurd hmoves ha
    | cons c0 cs' =>
      have hwfc0 : WfTree c0.2 := hwf.child (m := c0.1)
        (show (c0.1, c0.2) ∈ c0 :: cs' by simp)
      obtain ⟨mc0, hsome⟩ := puctSelect_some sqrtQ hsqrt
        (MTree.node tn tw tq tp tpl (c0 :: cs')) c0 cs' rfl hwfc0.q_abs_le hwfc0.p_nonneg
      rw [mctsSimulate]
      simp only [MTree.children]
      split
      · rename_i heq
        rw [heq] at hsome
        cases hsome
      · rename_i m child heq
        have hmem : (m, child) ∈ c0 :: cs' :=
          puctSelect_mem sqrtQ (MTree.node tn tw tq tp tpl (c0 :: cs')) (m, child) heq
        have hwfchild : WfTree child := hwf.child hmem
        split
        · rename_i hterm
          refine ⟨_, _, rfl, by rw [abs_neg]; exact terminalValue_abs _ _, ?_, ?_, ?_⟩
          · exact bump_wf (replaceChild_wf hwf (bump_wf hwfchild (terminalValue_abs _ _)))
              (by rw [abs_neg]; exact terminalValue_abs _ _)
          · intro _
            have hk := keysOf_bump_replace (MTree.node tn tw tq tp tpl (c0 :: cs')) m
              (child.bump (if check_big_board_winner
                  (update_small_board_status (setCell board m.1 m.2 p) status) = rootPlayer
                then 1
                else if check_big_board_winner
                  (update_small_board_status (setCell board m.1 m.2 p) status) = -rootPlayer
                then -1 else 0))
              (-(if check_big_board_winner
                  (update_small_board_status (setCell board m.1 m.2 p) status) = rootPlayer
                then 1
                else if check_big_board_winner
                  (update_small_board_status (setCell board m.1 m.2 p) status) = -rootPlayer
                then -1 else 0))
            exact hk
          · intro h; simp [MTree.children] at h
        · rename_i hterm
          have hsz : sizeOf child ≤ n := by
            have h1 : sizeOf child < sizeOf (MTree.node tn tw tq tp tpl (c0 :: cs')) :=
              sizeOf_child_lt (t := MTree.node tn tw tq tp tpl (c0 :: cs')) hmem
            omega
          obtain ⟨vc, child2, hsim, hvc, hwfc2, _, _⟩ := ih child hsz
            (setCell board m.1 m.2 p)
            (update_small_board_status (setCell board m.1 m.2 p) status)
            (engineNextConstraint
              (update_small_board_status (setCell board m.1 m.2 p) status) m.1 m.2)
            (-p) hwfchild
          rw [hsim]
          refine ⟨_, _, rfl, by rw [abs_neg]; exact hvc, ?_, ?_, ?_⟩
          · exact bump_wf (replaceChild_wf hwf hwfc2) (by rw [abs_neg]; exact hvc)
          · intro _
            have hk := keysOf_bump_replace (MTree.node tn tw tq tp tpl (c0 :: cs')) m
              child2 (-vc)
            exact hk
          · intro h; simp [MTree.children] at h

/-- The iteration loop: totality, the iteration bound, and preservation of
well-formedness and of the root's child keys. -/
theorem mctsLoop_spec (sqrtQ tanhQ : ℚ → ℚ) (hsqrt : ∀ x, 0 ≤ sqrtQ x)
    (htanh : ∀ x, |tanhQ x| ≤ 1) (player : Int) (board : Board) (status : Status)
    (cb : Option Move) (timeUp : Nat → Bool) :
    ∀ (fuel : Nat) (root : MTree) (iters : Nat), WfTree root →
      root.children.map Prod.fst = get_available_moves board status cb →
      ∃ root' iters', mctsLoop sqrtQ tanhQ player board status cb timeUp root iters fuel =
          .ok (root', iters') ∧ iters' ≤ iters + fuel ∧ WfTree root' ∧
          root'.children.map Prod.fst = get_available_moves board status cb := by
  intro fuel
  induction fuel with
  | zero => intro root iters hwf hkeys; exact ⟨root, iters, rfl, by omega, hwf, hkeys⟩
  | succ fuel ih =>
    intro root iters hwf hkeys
    rw [mctsLoop]
    by_cases htu : timeUp iters = true
    · rw [if_pos htu]
      exact ⟨root, iters, rfl, by omega, hwf, hkeys⟩
    · rw [if_neg htu]
      obtain ⟨v, root2, hsim, _, hwf2, hk1, hk2⟩ := mctsSimulate_spec sqrtQ tanhQ hsqrt htanh
        player (sizeOf root) root le_rfl board status cb player hwf
      rw [hsim]
      have hkeys2 : root2.children.map Prod.fst = get_available_moves board status cb := by
        match hc : root.children with
        | [] =>
          have hmv : get_available_moves board status cb = [] := by
            rw [← hkeys, hc]; rfl
          rw [hk2 hc hmv, hmv]; rfl
        | c :: cs => rw [hk1 (by rw [hc]; simp), hkeys]
      obtain ⟨root', iters', heq, hle, hwf', hkeys'⟩ := ih root2 (iters + 1) hwf2 hkeys2
      exact ⟨root', iters', heq, by omega, hwf', hkeys'⟩

/-- The decision fold keeps the first entry with maximal visit count. -/
theorem pickMaxN_fold_firstMax :
    ∀ (rest : List (Move × MTree)) (c0 : Move × MTree),
      c0.2.N ≤ (rest.foldl pickMaxN c0).2.N ∧
      ((rest.foldl pickMaxN c0 = c0 ∧ ∀ x ∈ rest, x.2.N ≤ c0.2.N) ∨
        ∃ l1 l2, rest = l1 ++ (rest.foldl pickMaxN c0) :: l2 ∧
          c0.2.N < (rest.foldl pickMaxN c0).2.N ∧
          (∀ x ∈ l1, x.2.N < (rest.foldl pickMaxN c0).2.N) ∧
          (∀ x ∈ l2, x.2.N ≤ (rest.foldl pickMaxN c0).2.N)) := by
  intro rest
  induction rest with
  | nil => intro c0; exact ⟨le_rfl, Or.inl ⟨rfl, by simp⟩⟩
  | cons c rest ih =>
    intro c0
    rw [List.foldl_cons]
    by_cases hc : c0.2.N < c.2.N
    · have hpick : pickMaxN c0 c = c := by rw [pickMaxN, if_pos hc]
      rw [hpick]
      obtain ⟨hbound, hcase⟩ := ih c
      refine ⟨by omega, Or.inr ?_⟩
      rcases hcase with ⟨heq, hall⟩ | ⟨l1, l2, hdecomp, hlt, hl1, hl2⟩
      · refine ⟨[], rest, by rw [heq]; simp, by rw [heq]; omega, by simp, ?_⟩
        intro x hx
        rw [heq]
        exact hall x hx
      · refine ⟨c :: l1, l2, by rw [List.cons_append, ← hdecomp], by omega, ?_, hl2⟩
        intro x hx
        rcases List.mem_cons.1 hx with rfl | hx'
        · omega
        · exact hl1 x hx'
    · have hpick : pickMaxN c0 c = c0 := by rw [pickMaxN, if_neg hc]
      rw [hpick]
      obtain ⟨hbound, hcase⟩ := ih c0
      refine ⟨hbound, ?_⟩
      rcases hcase with ⟨heq, hall⟩ | ⟨l1, l2, hdecomp, hlt, hl1, hl2⟩
      · left
        refine ⟨heq, ?_⟩
        intro x hx
        rcases List.mem_cons.1 hx with rfl | hx'
        · omega
        · exact hall x hx'
      · refine Or.inr ⟨c :: l1, l2, by rw [List.cons_append, ← hdecomp], hlt, ?_, hl2⟩
        intro x hx
        rcases List.mem_cons.1 hx with rfl | hx'
        · omega
        · exact hl1 x hx'

theorem mctsDecision_firstMax (root : MTree) (c0 : Move × MTree) (cs : List (Move × MTree))
    (h : root.children = c0 :: cs) :
    ∃ mc, IsFirstMaxByN root.children mc ∧ mctsDecision root = some mc.1 := by
  obtain ⟨hbound, hcase⟩ := pickMaxN_fold_firstMax cs c0
  refine ⟨cs.foldl pickMaxN c0, ?_, ?_⟩
  · rw [h, IsFirstMaxByN]
    rcases hcase with ⟨heq, hall⟩ | ⟨l1, l2, hdecomp, hlt, hl1, hl2⟩
    · refine ⟨[], cs, by rw [heq]; simp, by simp, ?_⟩
      intro x hx
      rw [heq]
      exact hall x hx
    · refine ⟨c0 :: l1, l2, by rw [List.cons_append, ← hdecomp], ?_, hl2⟩
      intro x hx
      rcases List.mem_cons.1 hx with rfl | hx'
      · omega
      · exact hl1 x hx'
  · rw [mctsDecision, h]

theorem mctsDecision_none_iff (root : MTree) :
    mctsDecision root = none ↔ root.children = [] := by
  match hc : root.children with
  | [] => simp [mctsDecision, hc]
  | c :: cs => simp [mctsDecision, hc]

/-- C8.  For every state, playout cap and wall-clock oracle (under the
mathematical bounds satisfied by the modelled floats: tanh-values in
[-1, 1] and a nonnegative square root), the MCTS search performs at most
`max_playouts` iterations and returns without error; it returns the root
child with the highest visit count, ties broken by first-generated order;
the returned move is a legal move, and `None` is returned exactly when
there is no legal move. -/
theorem claim8_mcts_search (sqrtQ tanhQ : ℚ → ℚ) (board : Board) (status : Status)
    (cb : Option Move) (player : Int) (timeUp : Nat → Bool) (maxPlayouts : Nat)
    (hsqrt : ∀ x, 0 ≤ sqrtQ x) (htanh : ∀ x, |tanhQ x| ≤ 1) :
    ∃ root' iters,
      mctsLoop sqrtQ tanhQ player board status cb timeUp
        (mctsInitRoot board status cb player) 0 maxPlayouts = .ok (root', iters) ∧
      iters ≤ maxPlayouts ∧
      mctsSearch sqrtQ tanhQ board status cb player timeUp maxPlayouts =
        .ok (mctsDecision root') ∧
      (mctsDecision root' = none ↔ get_available_moves board status cb = []) ∧
      ∀ m, mctsDecision root' = some m →
        m ∈ get_available_moves board status cb ∧
        ∃ mc, IsFirstMaxByN root'.children mc ∧ mc.1 = m := by
  obtain ⟨root', iters, heq, hle, hwf', hkeys⟩ := mctsLoop_spec sqrtQ tanhQ hsqrt htanh
    player board status cb timeUp maxPlayouts (mctsInitRoot board status cb player) 0
    (mctsInitRoot_wf ..) (mctsInitRoot_keys ..)
  refine ⟨root', iters, heq, by omega, ?_, ?_, ?_⟩
  · rw [mctsSearch, heq]
  · rw [mctsDecision_none_iff]
    constructor
    · intro hc
      rw [← hkeys, hc]
      rfl
    · intro hmv
      rw [hmv] at hkeys
      exact List.map_eq_nil.1 hkeys
  · intro m hm
    match hc : root'.children with
    | [] =>
      rw [(mctsDecision_none_iff root').2 hc] at hm
      cases hm
    | c0 :: cs =>
      obtain ⟨mc, hfirst, hdec⟩ := mctsDecision_firstMax root' c0 cs hc
      rw [hc] at hfirst
      rw [hdec, Option.some.injEq] at hm
      refine ⟨?_, mc, hfirst, hm⟩
      rw [← hm, ← hkeys, hc]
      obtain ⟨l1, l2, hdecomp, _, _⟩ := hfirst
      rw [hdecomp]
      simp

/-- Witness for C8: a concrete invocation on the empty board with a
single playout and constant oracles. -/
theorem claim8_mcts_search_witness :
    ∃ root' iters,
      mctsLoop (fun _ => 0) (fun _ => 0) 1 create_board create_small_board_status none
        (fun _ => false) (mctsInitRoot create_board create_small_board_status none 1) 0 1 =
        .ok (root', iters) ∧
      iters ≤ 1 ∧
      mctsSearch (fun _ => 0) (fun _ => 0) create_board create_small_board_status none 1
        (fun _ => false) 1 = .ok (mctsDecision root') ∧
      (mctsDecision root' = none ↔
        get_available_moves create_board create_small_board_status none = []) ∧
      ∀ m, mctsDecision root' = some m →
        m ∈ get_available_moves create_board create_small_board_status none ∧
        ∃ mc, IsFirstMaxByN root'.children mc ∧ mc.1 = m :=
  claim8_mcts_search (fun _ => 0) (fun _ => 0) create_board create_small_board_status none 1
    (fun _ => false) 1 (fun _ => le_refl 0) (fun _ => by norm_num)

end STTT
